import Mathlib

attribute [local semireducible] Rat.add Rat.mul Rat.inv Rat.sub

/-!
# Verification of the pdf2excel extraction-and-normalization engine

Shallow embedding of the core of the `pdf2excel` repository
(`src/backend/...`): token normalizers (amounts, dates, text cleaning),
the generic parser, output finalization, the consistency validator, and
the orchestrator fallback logic, together with theorems settling the
spec's claims about them.

Modelling conventions:
* Python `str` is modelled by `String` / `List Char`; Python string
  methods (`strip`, `split`, `replace`, `in`, regexes restricted to the
  concrete patterns appearing in the source) are re-implemented
  character by character below, following CPython semantics.
* Python `float` values are modelled by `ℚ` (`Rat`).  All amounts the
  claims are about are exact two-decimal values, for which rational and
  binary floating-point comparison and formatting agree.
* `re`'s `\d` and `str.isdigit` are modelled by ASCII `Char.isDigit`;
  Unicode-only digits do not occur in the inputs the engine handles.
* Fallible Python code (`try`/`except`, `None` returns) is modelled by
  `Option`/`Except`.
-/

namespace Pdf2Excel

/-! ## Python string primitives -/

/-- Python whitespace for `str` (the set matched by `str.strip`,
`str.isspace` and the regex class `\s` in Unicode mode): ASCII
whitespace, the C0 separator block `\x1c`–`\x1f`, NEL, NBSP and the
Unicode space separators. -/
def pyIsSpace (c : Char) : Bool :=
  c ∈ [' ', '\t', '\n', '\r', '\x0b', '\x0c',
       '\x1c', '\x1d', '\x1e', '\x1f', '\x85', '\xa0',
       ' ', ' ', ' ', ' ', ' ', ' ',
       ' ', ' ', ' ', ' ', ' ', ' ',
       ' ', ' ', ' ', ' ', '　']

/-- Python `str.strip()` on a character list. -/
def pyStripL (l : List Char) : List Char :=
  ((l.dropWhile pyIsSpace).reverse.dropWhile pyIsSpace).reverse

/-- Python `str.strip()`. -/
def pyStrip (s : String) : String := ⟨pyStripL s.data⟩

/-- `re.sub(r'\s+', ' ', ·)`: every maximal run of whitespace becomes a
single ASCII space.  `sawSpace` records whether the previous character
was part of a whitespace run. -/
def collapseWsAux : Bool → List Char → List Char
  | _, [] => []
  | sawSpace, c :: rest =>
    if pyIsSpace c then
      if sawSpace then collapseWsAux true rest
      else ' ' :: collapseWsAux true rest
    else c :: collapseWsAux false rest

/-- `re.sub(r'\s+', ' ', ·)` on a character list. -/
def collapseWsL (l : List Char) : List Char := collapseWsAux false l

/-- The character class `[\x00-\x1f\x7f-\x9f]` removed by
`BaseParser.clean_text`. -/
def isCtrl (c : Char) : Bool :=
  (c.toNat ≤ 0x1f) || (0x7f ≤ c.toNat && c.toNat ≤ 0x9f)

/-- Index of the last occurrence of `ch` (auxiliary for `rfindIdx`). -/
def rfindIdxAux (ch : Char) : List Char → Option Nat
  | [] => none
  | a :: rest =>
    match rfindIdxAux ch rest with
    | some i => some (i + 1)
    | none => if a = ch then some 0 else none

/-- Last index of `c` in `l` (Python `str.rfind`): `-1` when absent. -/
def rfindIdx (l : List Char) (c : Char) : Int :=
  match rfindIdxAux c l with
  | some i => (i : Int)
  | none => -1

/-- Split on a single character (Python `str.split(c)`). -/
def splitOnChar (l : List Char) (c : Char) : List (List Char) :=
  match l with
  | [] => [[]]
  | a :: rest =>
    if a = c then [] :: splitOnChar rest c
    else
      match splitOnChar rest c with
      | [] => [[a]]
      | h :: t => (a :: h) :: t

/-- Numeric value of a digit string (most significant first). -/
def natOfDigits (l : List Char) : Nat :=
  l.foldl (fun acc c => 10 * acc + (c.toNat - '0'.toNat)) 0

/-- Value of a fractional digit string `frac` read as `0.frac`. -/
def fracOfDigits (l : List Char) : ℚ :=
  (natOfDigits l : ℚ) / (10 : ℚ) ^ l.length

/-- Python `float(s)` restricted to the decimal literals that reach it
in this code base: optional sign, digits with at most one `'.'`, at
least one digit.  The resulting binary double is modelled by the exact
decimal rational. -/
def pyFloatUnsigned (l : List Char) : Option ℚ :=
  let intPart := l.takeWhile Char.isDigit
  let rest := l.dropWhile Char.isDigit
  match rest with
  | [] => if intPart.isEmpty then none else some (natOfDigits intPart)
  | '.' :: frac =>
      if frac.all Char.isDigit && !(intPart.isEmpty && frac.isEmpty) then
        some ((natOfDigits intPart : ℚ) + fracOfDigits frac)
      else none
  | _ => none

/-- Python `float(s)` (see `pyFloatUnsigned`). -/
def pyFloat (l : List Char) : Option ℚ :=
  match l with
  | '-' :: rest => (pyFloatUnsigned rest).map (fun q => -q)
  | '+' :: rest => pyFloatUnsigned rest
  | _ => pyFloatUnsigned l

/-- Contiguous-sublist test on character lists. -/
def isSubL : List Char → List Char → Bool
  | n, [] => n.isEmpty
  | n, c :: rest => n.isPrefixOf (c :: rest) || isSubL n rest

/-- Substring containment, Python's `needle in hay` for strings. -/
def strIn (needle hay : String) : Bool :=
  isSubL needle.data hay.data

/-- Python `str.startswith` for a single character. -/
def headIs (l : List Char) (c : Char) : Bool :=
  match l with
  | [] => false
  | a :: _ => a = c

/-- Python `str.endswith` for a single character. -/
def lastIs (l : List Char) (c : Char) : Bool :=
  match l.getLast? with
  | none => false
  | some a => a = c

/-! ## Amount normalizers -/

/-- `BaseParser.parse_amount` (src/backend/parsers/base_parser.py,
lines 176–246).  Returns `0.0` whenever the token cannot be parsed. -/
def parse_amount (amount_str : String) : ℚ :=
  if amount_str = "" then 0
  else
    let clean1 := pyStripL amount_str.data
    if clean1 = [] ∨ clean1 ∈ [['-'], ['.'], [','], "nan".data, "None".data] then 0
    else
      let negSuffix := lastIs clean1 '-'
      let clean2 := clean1.filter (fun c => c.isDigit || c = '-' || c = '.' || c = ',')
      if clean2 = [] ∨ clean2 ∈ [['-'], ['.'], [',']] then 0
      else
        let clean3 := if negSuffix && lastIs clean2 '-' then clean2.dropLast else clean2
        let negPrefix := headIs clean3 '-'
        let clean4 := if negPrefix then clean3.tail else clean3
        let clean5 :=
          if clean4.contains ',' && clean4.contains '.' then
            if rfindIdx clean4 ',' > rfindIdx clean4 '.' then
              (clean4.filter (· ≠ '.')).map (fun c => if c = ',' then '.' else c)
            else clean4.filter (· ≠ ',')
          else if clean4.contains ',' then
            let parts := splitOnChar clean4 ','
            if parts.length = 2 ∧ (parts.getD 1 []).length = 2 then
              clean4.map (fun c => if c = ',' then '.' else c)
            else clean4.filter (· ≠ ',')
          else clean4
        match pyFloat clean5 with
        | some v => if negSuffix || negPrefix then -v else v
        | none => 0

/-- Separator class `[.,]` of the monetary-shape regex. -/
def isSepChar (c : Char) : Bool := c = '.' || c = ','

/-- Matcher for `(?:[.,]\d{3})*[.,]\d{2}$`: the input decomposes into
zero or more four-character groups (separator + three digits) followed
by one three-character group (separator + two digits).  The `$` anchor
makes the decomposition unique, so this recursion is equivalent to the
backtracking regex. -/
def shapeTail : List Char → Bool
  | [s, d1, d2] => isSepChar s && d1.isDigit && d2.isDigit
  | s :: d1 :: d2 :: d3 :: rest =>
      isSepChar s && d1.isDigit && d2.isDigit && d3.isDigit && shapeTail rest
  | _ => false

/-- Matcher for `^\d{1,3}(?:[.,]\d{3})*[.,]\d{2}$`. -/
def shapeAlt1 : List Char → Bool
  | d1 :: rest =>
      d1.isDigit &&
      (shapeTail rest ||
        match rest with
        | d2 :: rest2 =>
            d2.isDigit &&
            (shapeTail rest2 ||
              match rest2 with
              | d3 :: rest3 => d3.isDigit && shapeTail rest3
              | [] => false)
        | [] => false)
  | [] => false

/-- Matcher for `^\d+[.,]\d{2}$`. -/
def shapeAlt2 (l : List Char) : Bool :=
  decide (4 ≤ l.length) && (l.take (l.length - 3)).all Char.isDigit &&
    match l.drop (l.length - 3) with
    | [s, d1, d2] => isSepChar s && d1.isDigit && d2.isDigit
    | _ => false

/-- The format gate of `UniversalBankExtractor._parse_amount`:
`re.match(r'^\d{1,3}(?:[.,]\d{3})*[.,]\d{2}$|^\d+[.,]\d{2}$', ·)`. -/
def monetaryShape (l : List Char) : Bool :=
  shapeAlt1 l || shapeAlt2 l

/-- `UniversalBankExtractor._parse_amount`
(src/backend/extractors/universal_extractor.py, lines 729–785).
Returns `none` (Python `None`) when the token is not a parsable
monetary amount. -/
def universalParseAmount (amount_str : String) : Option ℚ :=
  if amount_str = "" then none
  else
    let clean1 := pyStripL amount_str.data
    if clean1 = [] ∨ (clean1.filter Char.isDigit).length > 11 then none
    else
      let isPar := headIs clean1 '(' && lastIs clean1 ')'
      let c2 := if isPar then pyStripL clean1.tail.dropLast else clean1
      let negSuf := lastIs c2 '-'
      let c3 := if negSuf then pyStripL c2.dropLast else c2
      let negPre := headIs c3 '-' || headIs c3 '−'
      let c4 := if negPre then pyStripL c3.tail else c3
      let c5 := c4.filter (fun c => !(c = '$' || pyIsSpace c))
      if !monetaryShape c5 then none
      else
        let c6 :=
          if c5.contains ',' && c5.contains '.' then
            if rfindIdx c5 ',' > rfindIdx c5 '.' then
              (c5.filter (· ≠ '.')).map (fun c => if c = ',' then '.' else c)
            else c5.filter (· ≠ ',')
          else if c5.contains ',' then
            let pos := rfindIdx c5 ','
            if (c5.length : Int) - pos - 1 = 2 then
              c5.map (fun c => if c = ',' then '.' else c)
            else c5.filter (· ≠ ',')
          else c5
        match pyFloat c6 with
        | some v => some (if isPar || negSuf || negPre then -v else v)
        | none => none

/-! ## Date normalizers

CPython `_strptime` matches each directive with a regex
(`%d` ↦ `3[01]|[12]\d|0[1-9]|[1-9]`, `%m` ↦ `1[0-2]|0[1-9]|[1-9]`,
`%y` ↦ `\d\d`, `%Y` ↦ `\d\d\d\d`), requires the whole string to be
consumed, and then builds a `date`, raising `ValueError` when the
calendar date is invalid.  The candidate lists below reproduce the
regex alternation order so that backtracking is faithful. -/

/-- Candidates for `%d` in regex preference order, each with the rest
of the input. -/
def dayCands : List Char → List (Nat × List Char)
  | a :: b :: rest =>
      (if a = '3' && (b = '0' || b = '1') then [(natOfDigits [a, b], rest)] else []) ++
      (if (a = '1' || a = '2') && b.isDigit then [(natOfDigits [a, b], rest)] else []) ++
      (if a = '0' && '1' ≤ b && b ≤ '9' then [(natOfDigits [a, b], rest)] else []) ++
      (if '1' ≤ a && a ≤ '9' then [(a.toNat - 48, b :: rest)] else [])
  | [a] => if '1' ≤ a && a ≤ '9' then [(a.toNat - 48, [])] else []
  | [] => []

/-- Candidates for `%m` in regex preference order. -/
def monthCands : List Char → List (Nat × List Char)
  | a :: b :: rest =>
      (if a = '1' && ('0' ≤ b && b ≤ '2') then [(natOfDigits [a, b], rest)] else []) ++
      (if a = '0' && '1' ≤ b && b ≤ '9' then [(natOfDigits [a, b], rest)] else []) ++
      (if '1' ≤ a && a ≤ '9' then [(a.toNat - 48, b :: rest)] else [])
  | [a] => if '1' ≤ a && a ≤ '9' then [(a.toNat - 48, [])] else []
  | [] => []

/-- Candidate for `%Y` (exactly four digits). -/
def year4Cands : List Char → List (Nat × List Char)
  | a :: b :: c :: d :: rest =>
      if a.isDigit && b.isDigit && c.isDigit && d.isDigit then
        [(natOfDigits [a, b, c, d], rest)] else []
  | _ => []

/-- Candidate for `%y` (exactly two digits), already mapped through
CPython's pivot: `yy < 69 ↦ 2000 + yy`, else `1900 + yy`. -/
def year2Cands : List Char → List (Nat × List Char)
  | a :: b :: rest =>
      if a.isDigit && b.isDigit then
        [((if natOfDigits [a, b] < 69 then 2000 + natOfDigits [a, b]
           else 1900 + natOfDigits [a, b]), rest)] else []
  | _ => []

/-- Match a literal separator character. -/
def sepCands (sep : Char) : List Char → List (Nat × List Char)
  | a :: rest => if a = sep then [(0, rest)] else []
  | [] => []

/-- Sequence two candidate matchers (regex concatenation with
backtracking). -/
def seqCands (f g : List Char → List (Nat × List Char))
    (l : List Char) : List ((Nat × Nat) × List Char) :=
  (f l).flatMap (fun p => (g p.2).map (fun q => ((p.1, q.1), q.2)))

/-- First full (whole-input) match of `field1 sep field2 sep field3`. -/
def matchThree (f1 f2 f3 : List Char → List (Nat × List Char))
    (sep : Option Char) (l : List Char) : Option (Nat × Nat × Nat) :=
  let s : List Char → List (Nat × List Char) :=
    match sep with
    | some c => sepCands c
    | none => fun l => [(0, l)]
  (((f1 l).flatMap fun p1 =>
    (s p1.2).flatMap fun ps1 =>
    (f2 ps1.2).flatMap fun p2 =>
    (s p2.2).flatMap fun ps2 =>
    (f3 ps2.2).filterMap fun p3 =>
      if p3.2.isEmpty then some (p1.1, p2.1, p3.1) else none).head?)

/-- Gregorian leap year. -/
def isLeap (y : Nat) : Bool :=
  (y % 4 = 0 && y % 100 ≠ 0) || y % 400 = 0

/-- Days in a month (`calendar` rules used by `datetime.date`). -/
def daysInMonth (y m : Nat) : Nat :=
  if m = 2 then (if isLeap y then 29 else 28)
  else if m ∈ [4, 6, 9, 11] then 30
  else 31

/-- `datetime.date(y, m, d)` succeeds. -/
def dateValid (y m d : Nat) : Bool :=
  1 ≤ y && y ≤ 9999 && 1 ≤ m && m ≤ 12 && 1 ≤ d && d ≤ daysInMonth y m

/-- One `strptime` attempt for a day-first format `%d s %m s (%Y|%y)`. -/
def strptimeDMY (year4 : Bool) (sep : Char) (l : List Char) :
    Option (Nat × Nat × Nat) :=
  match matchThree dayCands monthCands
      (if year4 then year4Cands else year2Cands) (some sep) l with
  | some (d, m, y) => if dateValid y m d then some (y, m, d) else none
  | none => none

/-- One `strptime` attempt for a year-first format `%Y s %m s %d`. -/
def strptimeYMD (sep : Option Char) (l : List Char) :
    Option (Nat × Nat × Nat) :=
  match matchThree year4Cands monthCands dayCands sep l with
  | some (y, m, d) => if dateValid y m d then some (y, m, d) else none
  | none => none

/-- Zero-padded two-digit rendering (`%d`, `%m`). -/
def pad2 (n : Nat) : String :=
  if n < 10 then "0" ++ toString n else toString n

/-- Zero-padded four-digit rendering (`%Y`). -/
def pad4 (n : Nat) : String :=
  if n < 10 then "000" ++ toString n
  else if n < 100 then "00" ++ toString n
  else if n < 1000 then "0" ++ toString n
  else toString n

/-- `strftime('%d/%m/%Y')`. -/
def fmtDMY (y m d : Nat) : String := pad2 d ++ "/" ++ pad2 m ++ "/" ++ pad4 y

/-- `strftime('%Y-%m-%d')`. -/
def fmtISO (y m d : Nat) : String := pad4 y ++ "-" ++ pad2 m ++ "-" ++ pad2 d

/-- `re.sub(r'[^\d\/\-\.]', '', ·)`: keep digits, slash, dash, dot. -/
def keepDateChars (l : List Char) : List Char :=
  l.filter (fun c => c.isDigit || c = '/' || c = '-' || c = '.')

/-- `BaseParser.normalize_date` (src/backend/parsers/base_parser.py,
lines 137–174): tries the fixed format list and renders `%d/%m/%Y`;
returns the cleaned string when no format matches. -/
def normalize_date (date_str : String) : String :=
  if date_str = "" then ""
  else
    let dateClean := keepDateChars (pyStripL date_str.data)
    if dateClean = [] then ""
    else
      let attempts : List (Option (Nat × Nat × Nat)) :=
        [strptimeDMY true '/' dateClean, strptimeDMY false '/' dateClean,
         strptimeDMY true '-' dateClean, strptimeDMY false '-' dateClean,
         strptimeDMY true '.' dateClean, strptimeDMY false '.' dateClean,
         strptimeYMD (some '/') dateClean, strptimeYMD (some '-') dateClean,
         strptimeYMD none dateClean]
      match (attempts.filterMap id).head? with
      | some (y, m, d) => fmtDMY y m d
      | none => ⟨dateClean⟩

/-- The day/month-only pattern `^(\d{1,2})[/\-\.](\d{1,2})$` of
`UniversalBankExtractor._normalize_date` (greedy `\d{1,2}`, full
match). -/
def matchDayMonthOnly (l : List Char) : Option (Nat × Nat) :=
  let digitsTake : List Char → List (List Char × List Char) := fun l =>
    match l with
    | a :: b :: rest =>
        (if a.isDigit && b.isDigit then [([a, b], rest)] else []) ++
        (if a.isDigit then [([a], b :: rest)] else [])
    | [a] => if a.isDigit then [([a], [])] else []
    | [] => []
  ((digitsTake l).flatMap (fun p =>
    match p.2 with
    | s :: rest2 =>
        if s = '/' || s = '-' || s = '.' then
          (digitsTake rest2).filterMap (fun q =>
            if q.2.isEmpty then some (natOfDigits p.1, natOfDigits q.1) else none)
        else []
    | [] => [])).head?

/-- `UniversalBankExtractor._normalize_date`
(src/backend/extractors/universal_extractor.py, lines 787–823) with
`date_format=None`.  `inferredYear` is `self.inferred_year` (set from
the filename hint, `None` when the hint holds no year — in that case
the day/month branch raises inside `datetime(None, ...)`, the
exception is swallowed and the stripped original string is returned;
the `datetime.now().year` default of `getattr` is unreachable because
`__init__` always sets the attribute). -/
def universalNormalizeDate (inferredYear : Option Nat) (date_str : String) : String :=
  if date_str = "" then ""
  else
    let rawDate := pyStripL date_str.data
    let rawDateClean := keepDateChars rawDate
    let attempts : List (Option (Nat × Nat × Nat)) :=
      [strptimeDMY false '/' rawDateClean, strptimeDMY true '/' rawDateClean,
       strptimeDMY true '-' rawDateClean, strptimeDMY false '-' rawDateClean,
       strptimeYMD (some '-') rawDateClean,
       strptimeDMY true '.' rawDateClean, strptimeDMY false '.' rawDateClean]
    match (attempts.filterMap id).head? with
    | some (y, m, d) => fmtISO y m d
    | none =>
      match matchDayMonthOnly rawDateClean with
      | some (d, m) =>
        match inferredYear with
        | some y => if dateValid y m d then fmtISO y m d else ⟨rawDate⟩
        | none => ⟨rawDate⟩
      | none => ⟨rawDate⟩

/-- `UniversalBankExtractor._extract_year_from_filename`
(src/backend/extractors/universal_extractor.py, lines 826–831): first
occurrence of `20\d{2}`. -/
def extractYearFromFilename (filename : String) : Option Nat :=
  let rec go : List Char → Option Nat
    | '2' :: '0' :: a :: b :: rest =>
        if a.isDigit && b.isDigit then some (2000 + natOfDigits [a, b])
        else go ('0' :: a :: b :: rest)
    | _ :: rest => go rest
    | [] => none
  go filename.data

/-- `pd.to_datetime(·, format='%d/%m/%Y', errors='coerce')` on one
string (strict format, coerced to `none` on failure). -/
def parseDateDMY (s : String) : Option (Nat × Nat × Nat) :=
  strptimeDMY true '/' s.data

/-! ## Text cleaning -/

/-- `BaseParser.clean_text` (src/backend/parsers/base_parser.py, lines
273–295): strip, collapse whitespace runs to one space, remove the
control characters `[\x00-\x1f\x7f-\x9f]`. -/
def clean_text (text : String) : String :=
  ⟨(collapseWsL (pyStripL text.data)).filter (fun c => !isCtrl c)⟩

/-- Uppercase-to-lowercase table: ASCII plus the accented letters used
in this code base (the inputs the engine handles are Spanish bank
statements; `str.lower`/`str.upper` restricted to this alphabet). -/
def lowerPairs : List (Char × Char) :=
  [('A', 'a'), ('B', 'b'), ('C', 'c'), ('D', 'd'), ('E', 'e'), ('F', 'f'), ('G', 'g'), ('H', 'h'), ('I', 'i'), ('J', 'j'), ('K', 'k'), ('L', 'l'), ('M', 'm'), ('N', 'n'), ('O', 'o'), ('P', 'p'), ('Q', 'q'), ('R', 'r'), ('S', 's'), ('T', 't'), ('U', 'u'), ('V', 'v'), ('W', 'w'), ('X', 'x'), ('Y', 'y'), ('Z', 'z'),
   ('Á', 'á'), ('É', 'é'), ('Í', 'í'), ('Ó', 'ó'), ('Ú', 'ú'),
   ('Ñ', 'ñ'), ('Ü', 'ü')]

/-- Lowercase-to-uppercase table (inverse of `lowerPairs`). -/
def upperPairs : List (Char × Char) :=
  [('a', 'A'), ('b', 'B'), ('c', 'C'), ('d', 'D'), ('e', 'E'), ('f', 'F'), ('g', 'G'), ('h', 'H'), ('i', 'I'), ('j', 'J'), ('k', 'K'), ('l', 'L'), ('m', 'M'), ('n', 'N'), ('o', 'O'), ('p', 'P'), ('q', 'Q'), ('r', 'R'), ('s', 'S'), ('t', 'T'), ('u', 'U'), ('v', 'V'), ('w', 'W'), ('x', 'X'), ('y', 'Y'), ('z', 'Z'),
   ('á', 'Á'), ('é', 'É'), ('í', 'Í'), ('ó', 'Ó'), ('ú', 'Ú'),
   ('ñ', 'Ñ'), ('ü', 'Ü')]

/-- `str.lower` on one character (restricted alphabet). -/
def pyLowerChar (c : Char) : Char :=
  (((lowerPairs.find? (fun p => p.1 = c)).map (fun p => p.2)).getD c)

/-- `str.upper` on one character (restricted alphabet). -/
def pyUpperChar (c : Char) : Char :=
  (((upperPairs.find? (fun p => p.1 = c)).map (fun p => p.2)).getD c)

/-- `str.lower()`. -/
def pyLower (s : String) : String := ⟨s.data.map pyLowerChar⟩

/-- `str.upper()`. -/
def pyUpper (s : String) : String := ⟨s.data.map pyUpperChar⟩

/-- The combining marks (Unicode category `Mn`) produced by NFD on the
characters above: combining acute, tilde and diaeresis. -/
def isMnMark (c : Char) : Bool :=
  c = '́' || c = '̃' || c = '̈'

/-- NFD decomposition table for the accented letters above. -/
def nfdPairs : List (Char × List Char) :=
  [('á', ['a', '́']), ('é', ['e', '́']), ('í', ['i', '́']),
   ('ó', ['o', '́']), ('ú', ['u', '́']), ('ñ', ['n', '̃']), ('ü', ['u', '̈']),
   ('Á', ['A', '́']), ('É', ['E', '́']), ('Í', ['I', '́']),
   ('Ó', ['O', '́']), ('Ú', ['U', '́']), ('Ñ', ['N', '̃']), ('Ü', ['U', '̈'])]

/-- `unicodedata.normalize('NFD', ·)` on one character, restricted to
the alphabet above (other characters are NFD-inert). -/
def nfdChar (c : Char) : List Char :=
  (((nfdPairs.find? (fun p => p.1 = c)).map (fun p => p.2)).getD [c])

/-- Uppercase + NFD + drop combining marks, on one character: the
character stage of `normalize_text`. -/
def normChar (c : Char) : List Char :=
  (nfdChar (pyUpperChar c)).filter (fun d => !isMnMark d)

/-- `normalize_text` (src/backend/utils/text_utils.py, lines 4–19):
uppercase, strip accents via NFD, collapse whitespace, strip. -/
def normalize_text (text : String) : String :=
  if text = "" then ""
  else ⟨pyStripL (collapseWsL (text.data.flatMap normChar))⟩

/-! ## Records, finalized output, and the consistency validator -/

/-- A draft transaction row produced by the v1 extractor's parsers
(`fecha/detalle/referencia/debitos/creditos/saldo` dict). -/
structure TxRow where
  fecha : String
  detalle : String
  referencia : String
  debitos : ℚ
  creditos : ℚ
  saldo : ℚ
deriving Repr, DecidableEq

/-- A finalized row of `UniversalBankExtractor._finalize_output`. -/
structure FinRow where
  fecha : String
  mes : Int
  anio : Int
  detalle : String
  referencia : String
  debitos : ℚ
  creditos : ℚ
  saldo : ℚ
  observaciones : String
deriving Repr, DecidableEq

/-- Round half-to-even to an integer (CPython's `format(x, '.2f')`
rounding of the scaled value; exact for the two-decimal amounts this
engine produces). -/
def roundHalfEven (q : ℚ) : ℤ :=
  let f := ⌊q⌋
  let r := q - f
  if r < 1 / 2 then f
  else if 1 / 2 < r then f + 1
  else if f % 2 = 0 then f else f + 1

/-- Python `f"{q:.2f}"` on the rational model of a float. -/
def fmt2 (q : ℚ) : String :=
  let sign := if q < 0 then "-" else ""
  let n := (roundHalfEven (|q| * 100)).toNat
  sign ++ toString (n / 100) ++ "." ++ pad2 (n % 100)

/-- The observation-append idiom used by the validator: extend with
`"; "` when an observation is already present, else set. -/
def appendObs (obs msg : String) : String :=
  if obs ≠ "" then obs ++ "; " ++ msg else msg

/-- The inconsistency message of `_validate_balance`. -/
def balanceMsg (expected actual : ℚ) : String :=
  "Inconsistencia – revisar (esperado: " ++ fmt2 expected ++
    ", actual: " ++ fmt2 actual ++ ")"

/-- `UniversalBankExtractor._validate_balance`
(src/backend/extractors/universal_extractor.py, lines 866–883): for
each row `i ≥ 1`, compare the balance against
`saldo[i-1] + creditos[i] - debitos[i]` with tolerance `0.01` and
append an observation on violation.  Only `observaciones` is written,
so reading the predecessor from the input list is faithful. -/
def validate_balance (rows : List FinRow) : List FinRow :=
  rows.enum.map fun p =>
    if p.1 = 0 then p.2
    else
      match rows[p.1 - 1]? with
      | none => p.2
      | some prev =>
        let expected := prev.saldo + p.2.creditos - p.2.debitos
        if |p.2.saldo - expected| > 1 / 100 then
          { p.2 with observaciones :=
              appendObs p.2.observaciones (balanceMsg expected p.2.saldo) }
        else p.2

/-- Count of `str.isdigit` characters (ASCII model). -/
def digitCount (s : String) : Nat := (s.data.filter Char.isDigit).length

/-- `UniversalBankExtractor._flag_problem_rows`
(src/backend/extractors/universal_extractor.py, lines 885–909): flag
all-zero rows and rows whose description is more than 70% digits
(ratio compared exactly; the float division agrees with the rational
one at these magnitudes). -/
def flag_problem_rows (rows : List FinRow) : List FinRow :=
  rows.map fun r =>
    let r1 :=
      if r.debitos = 0 ∧ r.creditos = 0 ∧ r.saldo = 0 then
        { r with observaciones := appendObs r.observaciones "Todos los montos en cero" }
      else r
    let det := r1.detalle
    if det ≠ "" ∧ 5 < det.length ∧
        (7 : ℚ) / 10 < (digitCount det : ℚ) / det.length then
      { r1 with observaciones := appendObs r1.observaciones "Detalle parece corrupto" }
    else r1

/-- `UniversalBankExtractor._finalize_output`
(src/backend/extractors/universal_extractor.py, lines 833–864) on the
typed row model: the column-filling and `to_numeric` steps are
identities on typed rows; month/year come from a strict `%d/%m/%Y`
parse (`errors='coerce'` giving 0), `observaciones` starts empty, then
the two validators run. -/
def finalize_output (rows : List TxRow) : List FinRow :=
  if rows = [] then []
  else
    let withDates := rows.map fun r =>
      let dt := parseDateDMY r.fecha
      { fecha := r.fecha
        mes := match dt with | some (_, m, _) => (m : Int) | none => 0
        anio := match dt with | some (y, _, _) => (y : Int) | none => 0
        detalle := r.detalle, referencia := r.referencia
        debitos := r.debitos, creditos := r.creditos, saldo := r.saldo
        observaciones := "" : FinRow }
    flag_problem_rows (validate_balance withDates)

/-! ## Regex scanners used by the line-based parsers

Each concrete regex of the source is embedded as a position matcher
returning candidate match lengths in the engine's backtracking
preference order; `searchPat`/`finditer` then reproduce `re.search`
and `re.finditer`. -/

/-- Take exactly `k` digits. -/
def takeDigits (k : Nat) (l : List Char) : Option (List Char × List Char) :=
  let t := l.take k
  if t.length = k && t.all Char.isDigit then some (t, l.drop k) else none

/-- Greedy `\d{a,b}` candidates: `ks` lists the lengths in preference
order (descending for greedy repetition). -/
def digitsRange (ks : List Nat) (l : List Char) : List (List Char × List Char) :=
  ks.filterMap (fun k => takeDigits k l)

/-- Python `\w` on the alphabet this engine handles: ASCII word
characters plus the accented Spanish letters. -/
def pyIsWordChar (c : Char) : Bool :=
  c.isAlphanum || c = '_' ||
    c ∈ ['á', 'é', 'í', 'ó', 'ú', 'ñ', 'ü', 'Á', 'É', 'Í', 'Ó', 'Ú', 'Ñ', 'Ü']

/-- Separator class `[\/\-\.]` of the generic date patterns. -/
def isDateSepDot (c : Char) : Bool := c = '/' || c = '-' || c = '.'

/-- Separator class: slash or dash. -/
def isDateSepSlash (c : Char) : Bool := c = '/' || c = '-'

/-- `\b` after a word character: next char absent or non-word. -/
def boundaryAfter : List Char → Bool
  | [] => true
  | c :: _ => !pyIsWordChar c

/-- Match lengths at this position for
`\b(\d{1,2})[\/\-\.](\d{1,2})[\/\-\.](\d{2,4})\b` (without the leading
boundary, which `searchPat` checks). -/
def tryDate1At (l : List Char) : Option Nat :=
  ((digitsRange [2, 1] l).flatMap fun p1 =>
    match p1.2 with
    | s1 :: r2 =>
      if isDateSepDot s1 then
        (digitsRange [2, 1] r2).flatMap fun p2 =>
          match p2.2 with
          | s2 :: r4 =>
            if isDateSepDot s2 then
              (digitsRange [4, 3, 2] r4).filterMap fun p3 =>
                if boundaryAfter p3.2 then
                  some (p1.1.length + 1 + p2.1.length + 1 + p3.1.length)
                else none
            else []
          | [] => []
      else []
    | [] => []).head?

/-- Match lengths for
`\b(\d{2,4})[\/\-\.](\d{1,2})[\/\-\.](\d{1,2})\b`. -/
def tryDate2At (l : List Char) : Option Nat :=
  ((digitsRange [4, 3, 2] l).flatMap fun p1 =>
    match p1.2 with
    | s1 :: r2 =>
      if isDateSepDot s1 then
        (digitsRange [2, 1] r2).flatMap fun p2 =>
          match p2.2 with
          | s2 :: r4 =>
            if isDateSepDot s2 then
              (digitsRange [2, 1] r4).filterMap fun p3 =>
                if boundaryAfter p3.2 then
                  some (p1.1.length + 1 + p2.1.length + 1 + p3.1.length)
                else none
            else []
          | [] => []
      else []
    | [] => []).head?

/-- Match lengths for the v1 text parser's date pattern
slash-or-dash separated `\b(\d{1,2}.\d{1,2}(?:.\d{2,4})?)\b` (separators slash or dash). -/
def tryV1DateAt (l : List Char) : Option Nat :=
  ((digitsRange [2, 1] l).flatMap fun p1 =>
    match p1.2 with
    | s1 :: r2 =>
      if isDateSepSlash s1 then
        (digitsRange [2, 1] r2).flatMap fun p2 =>
          (match p2.2 with
            | s2 :: r4 =>
              if isDateSepSlash s2 then
                (digitsRange [4, 3, 2] r4).filterMap fun p3 =>
                  if boundaryAfter p3.2 then
                    some (p1.1.length + 1 + p2.1.length + 1 + p3.1.length)
                  else none
              else []
            | [] => []) ++
          (if boundaryAfter p2.2 then [p1.1.length + 1 + p2.1.length] else [])
      else []
    | [] => []).head?

/-- `re.search` for a pattern that starts with `\b` followed by a
digit: scan left to right, attempting only at word boundaries.
Returns `(start, length)` of the first match. -/
def searchPatAux (tryAt : List Char → Option Nat) :
    Option Char → Nat → List Char → Option (Nat × Nat)
  | _, _, [] => none
  | prev, i, c :: rest =>
    let boundary := match prev with
      | none => true
      | some p => !pyIsWordChar p
    match (if boundary then tryAt (c :: rest) else none) with
    | some n => some (i, n)
    | none => searchPatAux tryAt (some c) (i + 1) rest

/-- `re.search` (see `searchPatAux`). -/
def searchPat (tryAt : List Char → Option Nat) (l : List Char) : Option (Nat × Nat) :=
  searchPatAux tryAt none 0 l

/-- Candidate tail lengths for `(?:[.,]\d{3})*[.,]\d{2}` in greedy
preference order. -/
def coreTailCands : List Char → List Nat
  | s :: d1 :: d2 :: d3 :: rest =>
      (if isSepChar s && d1.isDigit && d2.isDigit && d3.isDigit then
        (coreTailCands rest).map (· + 4) else []) ++
      (if isSepChar s && d1.isDigit && d2.isDigit then [3] else [])
  | [s, d1, d2] => if isSepChar s && d1.isDigit && d2.isDigit then [3] else []
  | _ => []

/-- Candidate lengths for `\d{1,3}(?:[.,]\d{3})*[.,]\d{2}`. -/
def coreNumCands (l : List Char) : List Nat :=
  (digitsRange [3, 2, 1] l).flatMap fun p =>
    (coreTailCands p.2).map (· + p.1.length)

/-- Candidate length for `\d+[.,]\d{2}` (the greedy `\d+` admits no
alternative, since a separator is never a digit). -/
def core2Cands (l : List Char) : List Nat :=
  let ds := l.takeWhile Char.isDigit
  if ds.isEmpty then []
  else
    match l.drop ds.length with
    | s :: d1 :: d2 :: _ =>
        if isSepChar s && d1.isDigit && d2.isDigit then [ds.length + 3] else []
    | _ => []

/-- Optional single character `c?`: consume-first preference. -/
def optChar (c : Char) (l : List Char) : List (Nat × List Char) :=
  match l with
  | a :: rest => if a = c then [(1, rest), (0, a :: rest)] else [(0, a :: rest)]
  | [] => [(0, [])]

/-- `\d{1,3}(?:[.,]\d{3})*[.,]\d{2}-` (negative-suffix amount). -/
def tryA0At (l : List Char) : Option Nat :=
  ((coreNumCands l).filterMap fun n =>
    match l.drop n with
    | '-' :: _ => some (n + 1)
    | _ => none).head?

/-- `-?\$?\s*\d{1,3}(?:[.,]\d{3})*[.,]\d{2}`. -/
def tryA1At (l : List Char) : Option Nat :=
  ((optChar '-' l).flatMap fun p1 =>
    (optChar '$' p1.2).flatMap fun p2 =>
      let sp := p2.2.takeWhile pyIsSpace
      let rest := p2.2.drop sp.length
      (coreNumCands rest).map (fun n => p1.1 + p2.1 + sp.length + n)).head?

/-- `-?\$?\s*\d+[.,]\d{2}`. -/
def tryA2At (l : List Char) : Option Nat :=
  ((optChar '-' l).flatMap fun p1 =>
    (optChar '$' p1.2).flatMap fun p2 =>
      let sp := p2.2.takeWhile pyIsSpace
      let rest := p2.2.drop sp.length
      (core2Cands rest).map (fun n => p1.1 + p2.1 + sp.length + n)).head?

/-- `\d+[.,]\d{2}`. -/
def tryA3At (l : List Char) : Option Nat :=
  (core2Cands l).head?

/-- `re.finditer`: leftmost non-overlapping matches, continuing after
each match end.  All embedded patterns consume at least one character,
so `fuel = length + 1` suffices for a complete scan. -/
def finditerAux (tryAt : List Char → Option Nat) :
    Nat → Nat → List Char → List (Nat × Nat)
  | 0, _, _ => []
  | _, _, [] => []
  | fuel + 1, i, c :: rest =>
    match tryAt (c :: rest) with
    | some n =>
        if n = 0 then finditerAux tryAt fuel (i + 1) rest
        else (i, i + n) :: finditerAux tryAt fuel (i + n) ((c :: rest).drop n)
    | none => finditerAux tryAt fuel (i + 1) rest

/-- `re.finditer` returning spans `(start, end)`. -/
def finditer (tryAt : List Char → Option Nat) (l : List Char) : List (Nat × Nat) :=
  finditerAux tryAt (l.length + 1) 0 l

/-- Substring `l[a:b]`. -/
def pySlice (l : List Char) (a b : Nat) : List Char :=
  (l.drop a).take (b - a)

/-- `l[:a] + l[b:]`. -/
def removeSpan (l : List Char) (a b : Nat) : List Char :=
  l.take a ++ l.drop b

/-- Python `str.replace(pat, '')` for a non-empty pattern. -/
def replaceAllAux (pat : List Char) : Nat → List Char → List Char
  | 0, l => l
  | _, [] => []
  | fuel + 1, c :: rest =>
    if pat.isPrefixOf (c :: rest) then
      replaceAllAux pat fuel ((c :: rest).drop pat.length)
    else c :: replaceAllAux pat fuel rest

/-- Python `str.replace(pat, '')`. -/
def replaceAll (l pat : List Char) : List Char :=
  if pat.isEmpty then l else replaceAllAux pat (l.length + 1) l

/-- Python `str.splitlines()` restricted to the line breaks occurring
in extracted PDF text (`\n`, `\r`, `\r\n`). -/
def splitLinesAux : List Char → List Char → List String
  | acc, [] => if acc.isEmpty then [] else [⟨acc.reverse⟩]
  | acc, '\r' :: '\n' :: rest => ⟨acc.reverse⟩ :: splitLinesAux [] rest
  | acc, '\r' :: rest => ⟨acc.reverse⟩ :: splitLinesAux [] rest
  | acc, '\n' :: rest => ⟨acc.reverse⟩ :: splitLinesAux [] rest
  | acc, c :: rest => splitLinesAux (c :: acc) rest

/-- Python `str.splitlines()`. -/
def splitLinesPy (s : String) : List String := splitLinesAux [] s.data

/-! ## BaseParser shared helpers and finalization -/

/-- A draft row built by `GenericParser` before `finalize`. -/
structure DraftRow where
  fecha : String
  detalle : String
  referencia : String
  debito : ℚ
  credito : ℚ
  saldo : ℚ
deriving Repr, DecidableEq

/-- A finalized row of `BaseParser.finalize` (columns `fecha, mes,
año, detalle, referencia, debito, credito, saldo`). -/
structure PRow where
  fecha : String
  mes : Int
  anio : Int
  detalle : String
  referencia : String
  debito : ℚ
  credito : ℚ
  saldo : ℚ
deriving Repr, DecidableEq

/-- A raw grid from table extraction. -/
abbrev Grid := List (List String)

/-- The raw-extraction-result dict handed to the parsers
(`{'text', 'tables', 'method', 'pages_count'}`). -/
structure RawData where
  text : String
  tables : List Grid
  method : String
  pages_count : Nat
deriving Repr, DecidableEq

/-- `BaseParser._find_header_row` header indicators. -/
def header_indicators : List String :=
  ["fecha", "date", "fec", "dia",
   "concepto", "detalle", "descripcion", "operacion",
   "debito", "credito", "saldo", "debe", "haber",
   "importe", "monto", "valor"]

/-- `BaseParser._find_header_row` (src/backend/parsers/base_parser.py,
lines 348–375): first row whose lowercased, space-joined text contains
at least two of the indicator substrings. -/
def find_header_row (t : Grid) : Option Nat :=
  ((t.enum.find? fun p =>
    let rowText := " ".intercalate (p.2.map pyLower)
    2 ≤ (header_indicators.filter (fun ind => strIn ind rowText)).length)).map (·.1)

/-- `BaseParser._extract_reference` literal patterns, searched
case-insensitively in order; `optDot` marks patterns with `\.?`. -/
def searchLitRefAux (lit : List Char) (optDot : Bool) : List Char → Option String
  | [] => none
  | c :: rest =>
    let here : Option String :=
      let low := (c :: rest).map pyLowerChar
      if (lit.map pyLowerChar).isPrefixOf low then
        let after := (c :: rest).drop lit.length
        let after2 := if optDot then
            match after with
            | '.' :: r => r
            | _ => after
          else after
        let afterSp := after2.dropWhile pyIsSpace
        let ds := afterSp.takeWhile Char.isDigit
        if ds.isEmpty then none else some ⟨ds⟩
      else none
    match here with
    | some r => some r
    | none => searchLitRefAux lit optDot rest

/-- `re.search(r'(\d{8,})', ·)`: first position starting a run of at
least eight digits, returning the greedy run. -/
def searchLongDigits : List Char → Option String
  | [] => none
  | c :: rest =>
    let ds := (c :: rest).takeWhile Char.isDigit
    if 8 ≤ ds.length then some ⟨ds⟩
    else searchLongDigits rest

/-- `BaseParser._extract_reference` (src/backend/parsers/
base_parser.py, lines 297–321). -/
def extract_reference (detalle : String) : String :=
  let l := detalle.data
  match searchLitRefAux "NRO".data true l with
  | some r => r
  | none =>
    match searchLitRefAux "REF".data true l with
    | some r => r
    | none =>
      match searchLitRefAux "REFERENCIA".data false l with
      | some r => r
      | none =>
        match searchLitRefAux "COMPROBANTE".data false l with
        | some r => r
        | none =>
          match searchLitRefAux "TRANSACCION".data false l with
          | some r => r
          | none =>
            match searchLongDigits l with
            | some r => r
            | none => ""

/-- `BaseParser.finalize` followed by `_clean_dataframe`
(src/backend/parsers/base_parser.py, lines 65–131) on the typed row
model: add `mes`/`año` from a strict `%d/%m/%Y` parse, then drop rows
with empty date, empty detail, or all three amounts zero. -/
def finalize (rows : List DraftRow) : List PRow :=
  if rows = [] then []
  else
    let withDates : List PRow := rows.map fun r =>
      let dt := parseDateDMY r.fecha
      { fecha := r.fecha
        mes := match dt with | some (_, m, _) => (m : Int) | none => 0
        anio := match dt with | some (y, _, _) => (y : Int) | none => 0
        detalle := r.detalle, referencia := r.referencia
        debito := r.debito, credito := r.credito, saldo := r.saldo }
    withDates.filter fun r =>
      r.fecha ≠ "" ∧ r.detalle ≠ "" ∧
        (r.debito ≠ 0 ∨ r.credito ≠ 0 ∨ r.saldo ≠ 0)

/-! ## GenericParser (src/backend/parsers/generic.py) -/

def date_indicators : List String := ["fecha", "date", "fec", "dia"]
def detail_indicators : List String :=
  ["concepto", "detalle", "descripcion", "causal", "operacion", "movimiento"]
def reference_indicators : List String :=
  ["referencia", "ref", "nro", "numero", "comprobante", "transaccion"]
def debit_indicators : List String :=
  ["debito", "debitos", "debe", "egreso", "salida", "cargo"]
def credit_indicators : List String :=
  ["credito", "creditos", "haber", "ingreso", "entrada", "abono", "deposito"]
def balance_indicators : List String := ["saldo", "balance", "total"]
def amount_indicators : List String := ["importe", "monto", "valor"]

/-- `GenericParser._map_columns` (src/backend/parsers/generic.py,
lines 134–156): map column indices to canonical field names via
substring tests on the lowercased, stripped header cell. -/
def map_columns (headers : List String) : List (Nat × String) :=
  headers.enum.filterMap fun p =>
    let h := pyStrip (pyLower p.2)
    if date_indicators.any (fun ind => strIn ind h) then some (p.1, "fecha")
    else if detail_indicators.any (fun ind => strIn ind h) then some (p.1, "detalle")
    else if reference_indicators.any (fun ind => strIn ind h) then some (p.1, "referencia")
    else if debit_indicators.any (fun ind => strIn ind h) then some (p.1, "debito")
    else if credit_indicators.any (fun ind => strIn ind h) then some (p.1, "credito")
    else if balance_indicators.any (fun ind => strIn ind h) then some (p.1, "saldo")
    else if amount_indicators.any (fun ind => strIn ind h) then some (p.1, "importe")
    else none

/-- `GenericParser._parse_table_row` (src/backend/parsers/generic.py,
lines 158–195). -/
def parse_table_row (row : List String) (colMap : List (Nat × String)) : DraftRow :=
  row.enum.foldl
    (fun tx p =>
      match (colMap.find? (fun q => q.1 = p.1)).map (·.2) with
      | none => tx
      | some field =>
        let vs := pyStrip p.2
        if field = "fecha" then { tx with fecha := normalize_date vs }
        else if field = "detalle" then { tx with detalle := clean_text vs }
        else if field = "referencia" then { tx with referencia := vs }
        else if field = "debito" then
          let amount := parse_amount vs
          if amount ≠ 0 then { tx with debito := |amount| } else tx
        else if field = "credito" then
          let amount := parse_amount vs
          if amount ≠ 0 then { tx with credito := |amount| } else tx
        else if field = "saldo" then
          let amount := parse_amount vs
          if amount ≠ 0 then { tx with saldo := |amount| } else tx
        else if field = "importe" then
          let amount := parse_amount vs
          if amount ≠ 0 then
            if amount < 0 then { tx with debito := |amount| }
            else { tx with credito := amount }
          else tx
        else tx)
    ⟨"", "", "", 0, 0, 0⟩

/-- `GenericParser._is_valid_transaction` (src/backend/parsers/
generic.py, lines 457–467). -/
def is_valid_transaction (tx : DraftRow) : Bool :=
  tx.fecha ≠ "" && tx.detalle ≠ "" &&
    (tx.debito ≠ 0 || tx.credito ≠ 0 || tx.saldo ≠ 0)

/-- `GenericParser._parse_from_tables` (src/backend/parsers/
generic.py, lines 101–132). -/
def parse_from_tables (tables : List Grid) : List DraftRow :=
  tables.flatMap fun table =>
    if table.isEmpty then []
    else
      match find_header_row table with
      | none => []
      | some headerRow =>
        let headers := table.getD headerRow []
        let colMap := map_columns headers
        if colMap.isEmpty then []
        else
          (table.drop (headerRow + 1)).filterMap fun row =>
            let tx := parse_table_row row colMap
            if is_valid_transaction tx then some tx else none

/-- `GenericParser._should_skip_line` (src/backend/parsers/generic.py,
lines 261–278): `re.match` of each skip pattern against the lowercased
line. -/
def should_skip_line (line : String) : Bool :=
  let low := line.data.map pyLowerChar
  let afterWs := low.dropWhile pyIsSpace
  (match afterWs with
   | 'p' :: c :: rest => (c = 'a' || c = 'á') && "gina".data.isPrefixOf rest
   | _ => false) ||
  "hoja".data.isPrefixOf afterWs ||
  "estimado cliente".data.isPrefixOf afterWs ||
  ("banco".data.isPrefixOf afterWs &&
    match afterWs.drop 5 with
    | c :: _ => pyIsSpace c
    | [] => false) ||
  "cbu:".data.isPrefixOf afterWs ||
  "cuenta corriente".data.isPrefixOf afterWs ||
  "caja de ahorro".data.isPrefixOf afterWs ||
  "movimientos pendientes".data.isPrefixOf low ||
  (!(afterWs.takeWhile Char.isDigit).isEmpty &&
    (afterWs.dropWhile Char.isDigit).all pyIsSpace) ||
  "estado de cuenta".data.isPrefixOf afterWs ||
  "resumen de cuenta".data.isPrefixOf afterWs

/-- `GenericParser._is_transaction_header` (src/backend/parsers/
generic.py, lines 237–242). -/
def is_transaction_header (line : String) : Bool :=
  let low := pyLower line
  2 ≤ ((["fecha", "concepto", "debito", "credito", "saldo"] :
        List String).filter (fun ind => strIn ind low)).length

/-- `GenericParser._is_other_section` (src/backend/parsers/generic.py,
lines 244–252). -/
def is_other_section (line : String) : Bool :=
  let low := pyLower line
  (["debitos automaticos", "transferencias recibidas",
    "transferencias enviadas", "detalle - comision",
    "situacion impositiva", "retenciones", "resumen"] :
    List String).any (fun ind => strIn ind low)

/-- `GenericParser._line_has_date` (src/backend/parsers/generic.py,
lines 254–259). -/
def line_has_date (line : String) : Bool :=
  (searchPat tryDate1At line.data).isSome || (searchPat tryDate2At line.data).isSome

/-- First maximum of `max(l, key=abs)` (Python returns the first
element attaining the maximal key). -/
def maxByAbs (l : List ℚ) : ℚ :=
  match l with
  | [] => 0
  | x :: xs => xs.foldl (fun best y => if |best| < |y| then y else best) x

/-- `GenericParser._categorize_amounts` (src/backend/parsers/
generic.py, lines 348–455). -/
def categorize_amounts (fecha detalle : String) (amounts : List ℚ)
    (original_line : String) : Option DraftRow :=
  if amounts = [] then none
  else
    let tx0 : DraftRow := ⟨fecha, detalle, extract_reference detalle, 0, 0, 0⟩
    let dl := pyLower detalle
    let ol := pyLower original_line
    let isSaldoLine :=
      (["saldo anterior", "saldo actual", "saldo al cierre",
        "saldo del periodo", "saldo final"] : List String).any (fun p => strIn p dl) ||
      (["saldo anterior", "saldo actual", "saldo al cierre"] :
        List String).any (fun p => strIn p ol)
    if isSaldoLine then some { tx0 with saldo := amounts.getD 0 0 }
    else
      let isDebit :=
        (["debito", "cargo", "comision", "impuesto",
          "transferencia enviada", "retiro", "pago",
          "automatico", "imp.", "iva", "interes",
          "mantenimiento", "ret."] : List String).any (fun w => strIn w dl)
      let isCredit :=
        (["credito", "deposito", "transferencia recibida",
          "abono", "ingreso", "acreditacion"] : List String).any (fun w => strIn w dl)
      match amounts with
      | [a] =>
        if a < 0 || isDebit then some { tx0 with debito := |a| }
        else some { tx0 with credito := |a| }
      | [m, b] =>
        let tx1 :=
          if isDebit then { tx0 with debito := |m| }
          else if isCredit then { tx0 with credito := |m| }
          else if m < 0 then { tx0 with debito := |m| }
          else { tx0 with credito := |m| }
        some { tx1 with saldo := b }
      | _ =>
        let lastA := amounts.getLast?.getD 0
        let maxAmount := maxByAbs amounts
        let balanceCandidate := if |lastA| < |maxAmount| / 10 then maxAmount else lastA
        let movementCandidates := amounts.filter (· ≠ balanceCandidate)
        let movement :=
          if movementCandidates.isEmpty then amounts.getD 0 0
          else maxByAbs movementCandidates
        let tx1 :=
          if isDebit then { tx0 with debito := |movement| }
          else if isCredit then { tx0 with credito := |movement| }
          else if movement < 0 then { tx0 with debito := |movement| }
          else { tx0 with credito := |movement| }
        some { tx1 with saldo := balanceCandidate }

/-- Stable descending sort of spans (Python
`sorted(·, reverse=True)` on pairs). -/
def insertSpanDesc (x : Nat × Nat) : List (Nat × Nat) → List (Nat × Nat)
  | [] => [x]
  | y :: ys =>
    if x.1 > y.1 ∨ (x.1 = y.1 ∧ x.2 > y.2) then x :: y :: ys
    else y :: insertSpanDesc x ys

/-- Stable descending sort of spans. -/
def sortSpansDesc (l : List (Nat × Nat)) : List (Nat × Nat) :=
  l.foldl (fun acc x => insertSpanDesc x acc) []

/-- Nonempty-interval overlap, Python's per-position membership test
between `range(start, end)` sets. -/
def spansOverlap (a b : Nat × Nat) : Bool :=
  b.1 < a.2 && a.1 < b.2

/-- `GenericParser._parse_transaction_line` (src/backend/parsers/
generic.py, lines 280–346): find the date, collect amounts (suffix
pattern first, then the other patterns skipping overlaps), excise date
and amount spans to obtain the description, and categorize. -/
def parse_transaction_line (line : String) : Option DraftRow :=
  let l := line.data
  let dm : Option (Nat × Nat) :=
    match searchPat tryDate1At l with
    | some s => some s
    | none => searchPat tryDate2At l
  match dm with
  | none => none
  | some (dstart, dlen) =>
    let fecha := normalize_date ⟨pySlice l dstart (dstart + dlen)⟩
    if fecha = "" then none
    else
      let step1 :=
        (finditer tryA0At l).foldl
          (fun (acc : List ℚ × List (Nat × Nat)) sp =>
            let a := parse_amount ⟨pySlice l sp.1 sp.2⟩
            if a ≠ 0 then (acc.1 ++ [a], acc.2 ++ [sp]) else acc)
          ([], [])
      let step2 :=
        ([tryA1At, tryA2At, tryA3At].foldl
          (fun acc tryAt =>
            (finditer tryAt l).foldl
              (fun (acc : List ℚ × List (Nat × Nat)) sp =>
                if acc.2.any (fun o => spansOverlap o sp) then acc
                else
                  let a := parse_amount ⟨pySlice l sp.1 sp.2⟩
                  if a ≠ 0 then (acc.1 ++ [a], acc.2 ++ [sp]) else acc)
              acc)
          step1)
      let clean0 := removeSpan l dstart (dstart + dlen)
      let cleanFinal :=
        (sortSpansDesc step2.2).foldl
          (fun cl (sp : Nat × Nat) =>
            let offset := l.length - cl.length
            removeSpan cl (sp.1 - offset) (sp.2 - offset))
          clean0
      let detalle := clean_text ⟨cleanFinal⟩
      categorize_amounts fecha detalle step2.1 line

/-- `GenericParser._parse_from_text` (src/backend/parsers/generic.py,
lines 201–235): state machine over non-blank stripped lines. -/
def parse_from_text_aux : List String → Bool → Bool → List DraftRow
  | [], _, _ => []
  | line :: rest, inSec, headerFound =>
    if should_skip_line line then parse_from_text_aux rest inSec headerFound
    else if is_transaction_header line then parse_from_text_aux rest true true
    else if headerFound && is_other_section line then
      parse_from_text_aux rest false headerFound
    else if !inSec && !line_has_date line then
      parse_from_text_aux rest inSec headerFound
    else
      match parse_transaction_line line with
      | some tx => tx :: parse_from_text_aux rest inSec headerFound
      | none => parse_from_text_aux rest inSec headerFound

/-- `GenericParser._parse_from_text`. -/
def parse_from_text (text : String) : List DraftRow :=
  let lines := ((splitLinesPy text).map pyStrip).filter (· ≠ "")
  parse_from_text_aux lines false false

/-- `GenericParser.parse` (src/backend/parsers/generic.py, lines
65–95): tables first (`PREFER_TABLES`), then text, else an empty
frame. -/
def genericParse (raw : RawData) : List PRow :=
  if !raw.tables.isEmpty then
    let rows := parse_from_tables raw.tables
    if !rows.isEmpty then finalize rows
    else if raw.text ≠ "" then
      let rows := parse_from_text raw.text
      if !rows.isEmpty then finalize rows else []
    else []
  else if raw.text ≠ "" then
    let rows := parse_from_text raw.text
    if !rows.isEmpty then finalize rows else []
  else []

/-! ## v1 extractor generic fallback chain
    (src/backend/extractors/universal_extractor.py) -/

/-- The day-month prefix pattern `\d{1,2}` + slash-or-dash +
`\d{1,2}` checked with `re.match` (anchored prefix, as a Boolean). -/
def matchesDayMonthPrefix (l : List Char) : Bool :=
  (digitsRange [2, 1] l).any fun p =>
    match p.2 with
    | s :: r => isDateSepSlash s && !(digitsRange [2, 1] r).isEmpty
    | [] => false

/-- `UniversalBankExtractor._parse_generic_running_balance`
(src/backend/extractors/universal_extractor.py, lines 555–629). -/
def parse_generic_running_balance (inferredYear : Option Nat)
    (tables : List Grid) : List TxRow :=
  tables.flatMap fun table =>
    if table.isEmpty then []
    else
      table.flatMap fun row =>
        let rowList := row.map pyStrip
        let rowText := pyUpper (" ".intercalate rowList)
        if (["SALDO ANTERIOR", "SALDO DEL PERIODO ANTERIOR"] :
            List String).any (fun kw => strIn kw rowText) then
          match (rowList.reverse.filterMap universalParseAmount).head? with
          | some saldo => [⟨"", "SALDO ANTERIOR", "", 0, 0, saldo⟩]
          | none => []
        else
          let fecha := rowList.getD 0 ""
          if !matchesDayMonthPrefix fecha.data then []
          else
            let fechaNorm := universalNormalizeDate inferredYear fecha
            let step := (rowList.drop 1).foldl
              (fun (acc : List String × List ℚ) cell =>
                match universalParseAmount cell with
                | some a => (acc.1, acc.2 ++ [a])
                | none =>
                    if cell ≠ "" && cell ≠ "nan" then (acc.1 ++ [cell], acc.2)
                    else acc)
              ([], [])
            let detalle := " ".intercalate step.1
            if 2 ≤ step.2.length then
              let saldo := step.2.getLast?.getD 0
              let movement := step.2.getD (step.2.length - 2) 0
              if movement < 0 then [⟨fechaNorm, detalle, "", |movement|, 0, saldo⟩]
              else [⟨fechaNorm, detalle, "", 0, |movement|, saldo⟩]
            else []

/-- `UniversalBankExtractor._parse_text_simple`
(src/backend/extractors/universal_extractor.py, lines 672–726). -/
def parse_text_simple (inferredYear : Option Nat) (text : String) : List TxRow :=
  let lines := ((splitLinesPy text).map pyStrip).filter (· ≠ "")
  lines.filterMap fun line =>
    if (["página", "banco", "cbu:", "estimado"] :
        List String).any (fun kw => strIn kw (pyLower line)) then none
    else
      match searchPat tryV1DateAt line.data with
      | none => none
      | some (dstart, dlen) =>
        let dateText : List Char := pySlice line.data dstart (dstart + dlen)
        let fecha := universalNormalizeDate inferredYear ⟨dateText⟩
        let amounts := (finditer tryA1At line.data).filterMap fun sp =>
          universalParseAmount ⟨pySlice line.data sp.1 sp.2⟩
        if amounts.isEmpty then none
        else
          let det0 := replaceAll line.data dateText
          let matchTexts := (finditer tryA1At det0).map fun sp =>
            pySlice det0 sp.1 sp.2
          let det1 := matchTexts.foldl replaceAll det0
          let detalle := pyStrip ⟨collapseWsL det1⟩
          if 2 ≤ amounts.length then
            let saldo := amounts.getLast?.getD 0
            let movement := amounts.getD (amounts.length - 2) 0
            if movement < 0 then some ⟨fecha, detalle, "", |movement|, 0, saldo⟩
            else some ⟨fecha, detalle, "", 0, |movement|, saldo⟩
          else none

/-- The collaborator outcomes consumed by
`UniversalBankExtractor._parse_generic`: the two option-tweaked camelot
reads, the plain camelot read used by the running-balance pass, the
pdfplumber text (whose extractor swallows its own exceptions and
returns the accumulated text), and the OCR page list. -/
structure GenEnv where
  camelotOptStream : Except Unit (List Grid)
  camelotOptLattice : Except Unit (List Grid)
  camelotPlain : Except Unit (List Grid)
  plumberText : String
  ocrPages : Except Unit (List (Nat × String))
  inferredYear : Option Nat

/-- One camelot-flavor attempt inside `_parse_generic`: any exception
in the guarded block (including the nested plain camelot read) is
caught and treated as a failed attempt. -/
def parseGenericFlavor (env : GenEnv) (opt : Except Unit (List Grid)) :
    Option (List FinRow) :=
  match opt with
  | .error _ => none
  | .ok t =>
    if t.isEmpty then none
    else
      match env.camelotPlain with
      | .error _ => none
      | .ok plain =>
        let df := parse_generic_running_balance env.inferredYear plain
        if df.isEmpty then none else some (finalize_output df)

/-- `UniversalBankExtractor._parse_generic`
(src/backend/extractors/universal_extractor.py, lines 632–670):
camelot (stream, then lattice), then pdfplumber text, then OCR, else
an empty frame. -/
def parse_generic (env : GenEnv) : List FinRow :=
  match parseGenericFlavor env env.camelotOptStream with
  | some r => r
  | none =>
    match parseGenericFlavor env env.camelotOptLattice with
    | some r => r
    | none =>
      let textTxs := parse_text_simple env.inferredYear env.plumberText
      if !textTxs.isEmpty then finalize_output textTxs
      else
        match env.ocrPages with
        | .error _ => []
        | .ok pagesData =>
          if pagesData.isEmpty then []
          else
            let ocrText := "\n\n".intercalate (pagesData.map (·.2))
            let ocrTxs := parse_text_simple env.inferredYear ocrText
            if !ocrTxs.isEmpty then finalize_output ocrTxs else []

/-! ## v2 extractor (src/backend/extractors/universal_extractor_v2.py) -/

/-- `UniversalBankExtractor._clean_dataframe` (v2, lines 159–177):
drop all-blank rows, then all-blank columns (grids from camelot are
rectangular). -/
def cleanDataframeV2 (t : Grid) : Grid :=
  let rows := t.filter fun row => !row.all (fun cell => pyStrip cell = "")
  let ncols := t.foldl (fun m r => max m r.length) 0
  let keep := (List.range ncols).filter fun j =>
    rows.any fun r => pyStrip (r.getD j "") ≠ ""
  rows.map fun r => keep.map fun j => r.getD j ""

/-- `UniversalBankExtractor._extract_tables_camelot` (v2, lines
87–109): exceptions give `[]`; empty frames are skipped; cleaned
frames are kept when rows and columns remain. -/
def extractTablesCamelot (camelot : Except Unit (List Grid)) : List Grid :=
  match camelot with
  | .error _ => []
  | .ok tables =>
    tables.filterMap fun df =>
      if df.isEmpty then none
      else
        let cleaned := cleanDataframeV2 df
        if !cleaned.isEmpty && !(cleaned.getD 0 []).isEmpty then some cleaned
        else none

/-- `UniversalBankExtractor.extract_from_pdf` (v2, lines 35–85): the
fixed fallback order camelot → pdfplumber → OCR, returning the
`'failed'` empty result when every strategy comes back empty.  The
collaborator outcomes are passed in (`.error` = the service raised;
the wrappers catch and substitute empty values). -/
def extract_from_pdf_v2 (camelot : Except Unit (List Grid))
    (plumber : Except Unit (String × Nat))
    (ocr : Except Unit (List (Nat × String))) : RawData :=
  let tables := extractTablesCamelot camelot
  if !tables.isEmpty then
    { text := (match plumber with | .ok tp => tp.1 | .error _ => "")
      tables := tables, method := "camelot", pages_count := 0 }
  else
    let tp := match plumber with | .ok tp => tp | .error _ => ("", 0)
    if tp.1 ≠ "" && 100 < (pyStripL tp.1.data).length then
      { text := tp.1, tables := [], method := "pdfplumber", pages_count := tp.2 }
    else
      let pagesData := match ocr with
        | .error _ => []
        | .ok pd => pd
      let ocrText :=
        if pagesData.isEmpty then ""
        else "\n\n".intercalate (pagesData.map fun p =>
          "--- Página " ++ toString p.1 ++ " ---\n" ++ p.2)
      if ocrText ≠ "" && 50 < (pyStripL ocrText.data).length then
        { text := ocrText, tables := [], method := "ocr",
          pages_count := pagesData.length }
      else { text := "", tables := [], method := "failed", pages_count := 0 }

/-! ## Orchestrator dispatch (src/backend/parser_factory.py) -/

/-- The post-detection flow of `parse_pdf`
(src/backend/parser_factory.py, lines 154–167): invoke the selected
parser; on success return its frame unchanged (empty or not); on an
exception fall back to `GenericParser` — but only when the detected
bank is not already `GENERIC`. -/
def parse_pdf_dispatch (specificParse : RawData → Except Unit (List PRow))
    (bankName : String) (raw : RawData) : Except Unit (List PRow) :=
  match specificParse raw with
  | .ok df => .ok df
  | .error e =>
    if bankName ≠ "GENERIC" then .ok (genericParse raw) else .error e

/-- `MacroParser.detect` (src/backend/parsers/macro.py, lines
21–23). -/
def macroDetect (text filename : String) : Bool :=
  let haystack := pyUpper (text ++ " " ++ filename)
  (["BANCO MACRO", "MACRO", "FIDEICOMISO", "CUENTA CORRIENTE ESPECIAL"] :
    List String).any (fun k => strIn k haystack)

/-- `MacroParser.parse` (src/backend/parsers/macro.py, lines 25–36)
restricted to the dict-shaped `raw_data` that `parse_pdf` passes: a
dict is neither a `str` nor a `list`, so every `isinstance` branch
fails and the parser returns the empty frame
`pd.DataFrame(columns=self.REQUIRED_COLUMNS)` — zero records, no
exception. -/
def macroParseRawDict (_raw : RawData) : List PRow := []

/-! ## Concrete inputs used by witnesses and counterexamples -/

/-- A camelot grid with a recognizable header row and one valid
transaction row. -/
def macroTable : Grid :=
  [["fecha", "detalle", "debito", "credito", "saldo"],
   ["01/02/2024", "PAGO SERVICIO", "100,00", "", ""]]

/-- A raw extraction result whose text detects the MACRO institution
and whose tables the generic parser can read. -/
def macroRaw : RawData := ⟨"BANCO MACRO", [macroTable], "camelot", 1⟩

/-- The row the generic parser extracts from `macroRaw`. -/
def macroRawGenericRow : PRow :=
  ⟨"01/02/2024", 2, 2024, "PAGO SERVICIO", "", 100, 0, 0⟩

/-- Balance-validation example rows (spec §8 balance tolerance). -/
def balRow1 : FinRow := ⟨"", 0, 0, "SALDO ANTERIOR", "", 0, 0, 1000, ""⟩

/-- Second row consistent with `balRow1` (credit 200, balance 1200). -/
def balRow2ok : FinRow := ⟨"01/02/2024", 2, 2024, "PAGO", "", 0, 200, 1200, ""⟩

/-- Second row inconsistent with `balRow1` (balance 1250). -/
def balRow2bad : FinRow := ⟨"01/02/2024", 2, 2024, "PAGO", "", 0, 200, 1250, ""⟩

/-! ## Claim theorems -/

/-- C1, counterexample.  The claim says: whenever the institution
parser selected by detection yields zero records, the pipeline output
equals the generic parser's output on the same raw input.  On
`macroRaw` the text detects MACRO (`MacroParser.detect` is true),
`MacroParser.parse` returns zero records without raising (a dict input
matches no `isinstance` branch), and `parse_pdf` then returns that
empty frame — it only falls back to `GenericParser` on an exception —
while the generic parser alone extracts one record from the same raw
input. -/
theorem C1_generic_fallback_counterexample :
    macroDetect macroRaw.text "f.pdf" = true ∧
    macroParseRawDict macroRaw = [] ∧
    parse_pdf_dispatch (fun r => Except.ok (macroParseRawDict r)) "MACRO" macroRaw =
      Except.ok [] ∧
    genericParse macroRaw = [macroRawGenericRow] ∧
    Except.ok (genericParse macroRaw) ≠
      parse_pdf_dispatch (fun r => Except.ok (macroParseRawDict r)) "MACRO" macroRaw := by
  refine ⟨by decide, rfl, rfl, by decide, ?_⟩
  intro h
  have : genericParse macroRaw = [] := by
    simpa [parse_pdf_dispatch, macroParseRawDict] using h
  rw [show genericParse macroRaw = [macroRawGenericRow] from by decide] at this
  cases this

/-- C1, amended.  `parse_pdf` falls back to the generic parser only
when the institution-specific parser raises an exception (and the
detected bank is not already GENERIC); in that case the final output
equals what the generic parser alone produces on the same raw
extraction input.  When the specific parser returns a result — even an
empty one — `parse_pdf` returns it unchanged. -/
theorem C1_generic_fallback_amended
    (specific : RawData → Except Unit (List PRow)) (bank : String) (raw : RawData) :
    (∀ e, specific raw = Except.error e → bank ≠ "GENERIC" →
        parse_pdf_dispatch specific bank raw = Except.ok (genericParse raw)) ∧
    (∀ rs, specific raw = Except.ok rs →
        parse_pdf_dispatch specific bank raw = Except.ok rs) := by
  constructor
  · intro e he hb
    unfold parse_pdf_dispatch
    rw [he]
    simp [hb]
  · intro rs hrs
    unfold parse_pdf_dispatch
    rw [hrs]

/-- C1, witness for the amended theorem at concrete inputs. -/
theorem C1_generic_fallback_witness :
    parse_pdf_dispatch (fun _ => Except.error ()) "MACRO" macroRaw =
      Except.ok (genericParse macroRaw) ∧
    parse_pdf_dispatch (fun _ => Except.ok []) "MACRO" macroRaw = Except.ok [] :=
  ⟨(C1_generic_fallback_amended (fun _ => Except.error ()) "MACRO" macroRaw).1
      () rfl (by decide),
   (C1_generic_fallback_amended (fun _ => Except.ok []) "MACRO" macroRaw).2 [] rfl⟩

/-- C3.  When table extraction, text extraction and OCR all yield
empty content (or raise, which the wrappers convert to empty), the v2
entry point `extract_from_pdf` returns the `'failed'` empty result and
the v1 generic chain `_parse_generic` returns an empty transaction
sequence; both are total functions, so no exception escapes. -/
theorem C3_fallback_chain_empty
    (camelot cs cl plain : Except Unit (List Grid))
    (plumber : Except Unit (String × Nat)) (ptext : String)
    (ocr ocr2 : Except Unit (List (Nat × String))) (y : Option Nat)
    (h1 : camelot = Except.error () ∨ camelot = Except.ok [])
    (h2 : ∀ t n, plumber = Except.ok (t, n) → t = "")
    (h3 : ocr = Except.error () ∨ ocr = Except.ok [])
    (h4 : cs = Except.error () ∨ cs = Except.ok [])
    (h5 : cl = Except.error () ∨ cl = Except.ok [])
    (h6 : ptext = "")
    (h7 : ocr2 = Except.error () ∨ ocr2 = Except.ok []) :
    extract_from_pdf_v2 camelot plumber ocr = ⟨"", [], "failed", 0⟩ ∧
    parse_generic ⟨cs, cl, plain, ptext, ocr2, y⟩ = [] := by
  subst h6
  constructor
  · rcases h1 with rfl | rfl <;>
      rcases h3 with rfl | rfl <;>
      [skip; skip; skip; skip] <;>
      (first
        | (rcases plumber with _ | ⟨t, n⟩
           · rfl
           · have ht : t = "" := h2 t n rfl
             subst ht
             rfl))
  · rcases h4 with rfl | rfl <;> rcases h5 with rfl | rfl <;>
      rcases h7 with rfl | rfl <;> rfl

/-- C3, witness at concrete inputs. -/
theorem C3_fallback_chain_witness :
    extract_from_pdf_v2 (Except.ok []) (Except.ok ("", 0)) (Except.ok []) =
      ⟨"", [], "failed", 0⟩ ∧
    parse_generic ⟨Except.error (), Except.ok [], Except.ok [[["x"]]], "",
      Except.ok [], none⟩ = [] :=
  C3_fallback_chain_empty (Except.ok []) (Except.error ()) (Except.ok [])
    (Except.ok [[["x"]]]) (Except.ok ("", 0)) "" (Except.ok []) (Except.ok []) none
    (Or.inr rfl) (fun t n h => by cases h; rfl) (Or.inr rfl) (Or.inl rfl)
    (Or.inr rfl) rfl (Or.inr rfl)

/-- C4, counterexample.  `BaseParser.parse_amount` does not recognize
the parenthesized negation encoding: it strips the parentheses as junk
characters without recording a sign, so `"(1.234,56)"` parses to
`+1234.56`, not the `-1234.56` the claim asserts for every
normalizer. -/
theorem C4_negation_counterexample :
    parse_amount "(1.234,56)" = 123456 / 100 ∧
    parse_amount "(1.234,56)" ≠ -(123456 / 100) := by
  constructor
  · decide
  · decide

/-- C4, amended.  `UniversalBankExtractor._parse_amount` maps all
three negation encodings (trailing minus, leading minus, parentheses)
of `1.234,56` to `-1234.56`; `BaseParser.parse_amount` does so for the
trailing- and leading-minus forms but parses the parenthesized form as
`+1234.56`. -/
theorem C4_negation_amended :
    universalParseAmount "1.234,56-" = some (-(123456 / 100)) ∧
    universalParseAmount "-1.234,56" = some (-(123456 / 100)) ∧
    universalParseAmount "(1.234,56)" = some (-(123456 / 100)) ∧
    parse_amount "1.234,56-" = -(123456 / 100) ∧
    parse_amount "-1.234,56" = -(123456 / 100) ∧
    parse_amount "(1.234,56)" = 123456 / 100 := by
  refine ⟨by decide, by decide, by decide, by decide, by decide, by decide⟩

/-- C6.  Every row surviving `BaseParser.finalize` (which applies
`_clean_dataframe`) has at least one non-zero amount; in particular a
draft record with no parsable date and all three amounts zero never
appears in the finalized sequence. -/
theorem C6_invalid_record_filtering (rows : List DraftRow) (r : PRow)
    (hr : r ∈ finalize rows) :
    r.debito ≠ 0 ∨ r.credito ≠ 0 ∨ r.saldo ≠ 0 := by
  unfold finalize at hr
  split at hr
  · cases hr
  · have := List.of_mem_filter hr
    exact (of_decide_eq_true this).2.2

/-- C6, witness: a concrete draft list whose surviving row the theorem
applies to. -/
theorem C6_invalid_record_filtering_witness :
    (⟨"01/02/2024", 2, 2024, "X", "", 1, 0, 0⟩ : PRow).debito ≠ 0 ∨
    (⟨"01/02/2024", 2, 2024, "X", "", 1, 0, 0⟩ : PRow).credito ≠ 0 ∨
    (⟨"01/02/2024", 2, 2024, "X", "", 1, 0, 0⟩ : PRow).saldo ≠ 0 :=
  C6_invalid_record_filtering [⟨"01/02/2024", "X", "", 1, 0, 0⟩]
    ⟨"01/02/2024", 2, 2024, "X", "", 1, 0, 0⟩ (by decide)

/-- C8, counterexample.  With the filename hint `"Marzo 2025"` the
year is indeed inferred as 2025, but `_normalize_date` renders the
canonical form as ISO `"2025-03-05"`, not the `"05/03/2025"` the claim
asserts. -/
theorem C8_date_year_counterexample :
    extractYearFromFilename "Marzo 2025" = some 2025 ∧
    universalNormalizeDate (extractYearFromFilename "Marzo 2025") "05/03" =
      "2025-03-05" ∧
    universalNormalizeDate (extractYearFromFilename "Marzo 2025") "05/03" ≠
      "05/03/2025" := by
  refine ⟨by decide, by decide, by decide⟩

/-- C9, counterexample.  For the comma-only token `"1,234,56"` two
digits follow the (last) comma, yet `BaseParser.parse_amount` treats
the commas as grouping (it requires exactly one comma for the decimal
reading), giving `123456`, not `1234.56`; and for `"12,345"` the claim
prescribes thousands grouping (`12345`), but
`UniversalBankExtractor._parse_amount` rejects the token outright. -/
theorem C9_separator_counterexample :
    parse_amount "1,234,56" = 123456 ∧
    parse_amount "1,234,56" ≠ 123456 / 100 ∧
    universalParseAmount "1,234,56" = none ∧
    universalParseAmount "12,345" = none ∧
    parse_amount "12,345" = 12345 := by
  refine ⟨by decide, by decide, by decide, by decide, by decide⟩

/-- C10, counterexample.  `clean_text` removes control characters
*after* collapsing whitespace, so removing an interior control
character can create a new double space: `clean_text "a \x00 b"` is
`"a  b"`, and applying `clean_text` again gives `"a b"` — the function
is not idempotent. -/
theorem C10_idempotence_counterexample :
    clean_text "a \x00 b" = "a  b" ∧
    clean_text (clean_text "a \x00 b") = "a b" ∧
    clean_text (clean_text "a \x00 b") ≠ clean_text "a \x00 b" := by
  refine ⟨by decide, by decide, by decide⟩

/-! ### Helper lemmas for the validator and normalizer theorems -/

theorem pyIsSpace_not_digit {c : Char} (h : pyIsSpace c = true) :
    c.isDigit = false := by
  unfold pyIsSpace at h
  rw [decide_eq_true_eq] at h
  fin_cases h <;> rfl

theorem filter_digit_dropWhile_space (l : List Char) :
    (l.dropWhile pyIsSpace).filter Char.isDigit = l.filter Char.isDigit := by
  induction l with
  | nil => rfl
  | cons c t ih =>
    by_cases h : pyIsSpace c
    · rw [List.dropWhile_cons_of_pos h, ih,
        List.filter_cons_of_neg (by simp [pyIsSpace_not_digit h])]
    · rw [List.dropWhile_cons_of_neg (by simp [h])]

theorem digitCount_pyStripL (l : List Char) :
    ((pyStripL l).filter Char.isDigit).length = (l.filter Char.isDigit).length := by
  unfold pyStripL
  rw [List.filter_reverse, List.length_reverse, filter_digit_dropWhile_space,
    List.filter_reverse, List.length_reverse, filter_digit_dropWhile_space]

theorem appendObs_eq_append (obs msg : String) :
    ∃ t, appendObs obs msg = obs ++ t := by
  unfold appendObs
  by_cases h : obs = ""
  · subst h
    exact ⟨msg, by simp⟩
  · exact ⟨"; " ++ msg, by rw [if_pos h, String.append_assoc]⟩

theorem isPrefixOf_append_self (l t : List Char) : l.isPrefixOf (l ++ t) = true := by
  induction l with
  | nil => simp [List.isPrefixOf]
  | cons a l ih => simp [List.isPrefixOf, ih]

theorem validate_balance_frame (rows : List FinRow) (i : Nat) (r : FinRow)
    (h : rows[i]? = some r) :
    ∃ t, (validate_balance rows)[i]? =
      some { r with observaciones := r.observaciones ++ t } := by
  unfold validate_balance
  rw [List.getElem?_map, List.getElem?_enum, h]
  simp only [Option.map_some']
  by_cases hi : i = 0
  · subst hi
    exact ⟨"", by simp⟩
  · cases hprev : rows[i - 1]? with
    | none =>
      refine ⟨"", ?_⟩
      rw [Option.some.injEq, if_neg hi]
      simp
    | some prev =>
      by_cases hc : |r.saldo - (prev.saldo + r.creditos - r.debitos)| > 1 / 100
      · obtain ⟨t, ht⟩ :=
          appendObs_eq_append r.observaciones
            (balanceMsg (prev.saldo + r.creditos - r.debitos) r.saldo)
        refine ⟨t, ?_⟩
        rw [Option.some.injEq, if_neg hi]
        dsimp only
        rw [if_pos hc, ht]
      · refine ⟨"", ?_⟩
        rw [Option.some.injEq, if_neg hi]
        dsimp only
        rw [if_neg hc]
        simp

theorem flag_problem_rows_frame (rows : List FinRow) (i : Nat) (r : FinRow)
    (h : rows[i]? = some r) :
    ∃ t, (flag_problem_rows rows)[i]? =
      some { r with observaciones := r.observaciones ++ t } := by
  unfold flag_problem_rows
  rw [List.getElem?_map, h]
  simp only [Option.map_some']
  by_cases h1 : r.debitos = 0 ∧ r.creditos = 0 ∧ r.saldo = 0
  · obtain ⟨ta, hta⟩ := appendObs_eq_append r.observaciones "Todos los montos en cero"
    by_cases h2 : r.detalle ≠ "" ∧ 5 < r.detalle.length ∧
        (7 : ℚ) / 10 < (digitCount r.detalle : ℚ) / r.detalle.length
    · obtain ⟨tb, htb⟩ :=
        appendObs_eq_append (r.observaciones ++ ta) "Detalle parece corrupto"
      refine ⟨ta ++ tb, ?_⟩
      rw [Option.some.injEq]
      rw [if_pos h1, hta]
      rw [if_pos h2, htb, String.append_assoc]
    · refine ⟨ta, ?_⟩
      rw [Option.some.injEq]
      rw [if_pos h1, hta]
      rw [if_neg h2]
  · by_cases h2 : r.detalle ≠ "" ∧ 5 < r.detalle.length ∧
        (7 : ℚ) / 10 < (digitCount r.detalle : ℚ) / r.detalle.length
    · obtain ⟨tb, htb⟩ := appendObs_eq_append r.observaciones "Detalle parece corrupto"
      refine ⟨tb, ?_⟩
      rw [Option.some.injEq]
      rw [if_neg h1]
      rw [if_pos h2, htb]
    · refine ⟨"", ?_⟩
      rw [Option.some.injEq]
      rw [if_neg h1, if_neg h2]
      simp

/-! ### Helper lemmas for the amount-separator theorems -/

theorem digit_not_space {c : Char} (h : c.isDigit = true) : pyIsSpace c = false := by
  by_contra hb
  rw [Bool.not_eq_false] at hb
  rw [pyIsSpace_not_digit hb] at h
  cases h

theorem digit_ne {c x : Char} (h : c.isDigit = true) (hx : x.isDigit = false) : c ≠ x := by
  intro he
  subst he
  rw [h] at hx
  cases hx

theorem digit_not_sep {c : Char} (h : c.isDigit = true) : isSepChar c = false := by
  unfold isSepChar
  by_cases h1 : c = '.'
  · subst h1; exact absurd h (by decide)
  · by_cases h2 : c = ','
    · subst h2; exact absurd h (by decide)
    · simp [h1, h2]

theorem dropWhile_eq_self_of (p : Char → Bool) (l : List Char)
    (h : ∀ x ∈ l, p x = false) : l.dropWhile p = l := by
  cases l with
  | nil => rfl
  | cons a rest => exact List.dropWhile_cons_of_neg (by simp [h a (List.mem_cons_self a rest)])

theorem pyStripL_eq_self (l : List Char) (h : ∀ x ∈ l, pyIsSpace x = false) :
    pyStripL l = l := by
  unfold pyStripL
  rw [dropWhile_eq_self_of _ _ h, dropWhile_eq_self_of, List.reverse_reverse]
  intro x hx
  exact h x (List.mem_reverse.mp hx)

theorem mk_ne_empty (l : List Char) (h : l ≠ []) : (⟨l⟩ : String) ≠ "" := by
  intro he
  exact h (congrArg String.data he)

theorem lastIs_append_cons (p : List Char) (x : Char) (c : List Char) (ch : Char) :
    lastIs (p ++ x :: c) ch = lastIs (x :: c) ch := by
  unfold lastIs
  rw [List.getLast?_append_cons]

theorem lastIs_eq_false_of (l : List Char) (ch : Char) (h : ∀ x ∈ l, x ≠ ch) :
    lastIs l ch = false := by
  unfold lastIs
  cases hg : l.getLast? with
  | none => rfl
  | some a =>
    have ha : a ∈ l := List.mem_of_mem_getLast? hg
    simp [h a ha]

theorem takeWhile_append_stop (q : Char → Bool) (p : List Char) (b : Char) (c : List Char)
    (hp : ∀ x ∈ p, q x = true) (hb : q b = false) :
    (p ++ b :: c).takeWhile q = p ∧ (p ++ b :: c).dropWhile q = b :: c := by
  induction p with
  | nil => simp [List.takeWhile_cons, List.dropWhile_cons, hb]
  | cons a p ih =>
    have ha : q a = true := hp a (List.mem_cons_self a p)
    have ih' := ih (fun x hx => hp x (List.mem_cons_of_mem a hx))
    simp [List.takeWhile_cons, List.dropWhile_cons, ha, ih'.1, ih'.2]

theorem takeWhile_all (q : Char → Bool) (l : List Char) (h : ∀ x ∈ l, q x = true) :
    l.takeWhile q = l ∧ l.dropWhile q = [] := by
  induction l with
  | nil => simp
  | cons a l ih =>
    have ha : q a = true := h a (List.mem_cons_self a l)
    have ih' := ih (fun x hx => h x (List.mem_cons_of_mem a hx))
    simp [List.takeWhile_cons, List.dropWhile_cons, ha, ih'.1, ih'.2]

theorem map_eq_self_of (f : Char → Char) (l : List Char) (h : ∀ x ∈ l, f x = x) :
    l.map f = l := by
  induction l with
  | nil => rfl
  | cons a l ih =>
    rw [List.map_cons, h a (List.mem_cons_self a l),
      ih (fun x hx => h x (List.mem_cons_of_mem a hx))]

theorem contains_eq_decide_mem (l : List Char) (a : Char) :
    l.contains a = decide (a ∈ l) := by
  induction l with
  | nil => rfl
  | cons b l ih =>
    by_cases hb : b = a
    · subst hb
      simp [List.contains_cons]
    · simp [List.contains_cons, ih, hb, Ne.symm hb]

theorem pyFloat_digits (l : List Char) (h : ∀ x ∈ l, x.isDigit = true) (hne : l ≠ []) :
    pyFloat l = some ((natOfDigits l : ℚ)) := by
  obtain ⟨d, rest, rfl⟩ := List.exists_cons_of_ne_nil hne
  have hd : d.isDigit = true := h d (List.mem_cons_self d rest)
  have h1 : d ≠ '-' := digit_ne hd (by decide)
  have h2 : d ≠ '+' := digit_ne hd (by decide)
  unfold pyFloat
  have hall := takeWhile_all Char.isDigit (d :: rest) h
  split
  · rename_i rest' heq
    rw [List.cons.injEq] at heq
    exact absurd heq.1 h1
  · rename_i rest' heq
    rw [List.cons.injEq] at heq
    exact absurd heq.1 h2
  · unfold pyFloatUnsigned
    rw [hall.1, hall.2]
    simp [hne]

theorem pyFloat_decimal (p c : List Char) (hp : ∀ x ∈ p, x.isDigit = true)
    (hc : ∀ x ∈ c, x.isDigit = true) (hne : ¬(p = [] ∧ c = [])) :
    pyFloat (p ++ '.' :: c) = some ((natOfDigits p : ℚ) + fracOfDigits c) := by
  have hsplit := takeWhile_append_stop Char.isDigit p '.' c hp (by decide)
  have hunsigned : pyFloatUnsigned (p ++ '.' :: c) =
      some ((natOfDigits p : ℚ) + fracOfDigits c) := by
    unfold pyFloatUnsigned
    rw [hsplit.1, hsplit.2]
    have hcall : c.all Char.isDigit = true := List.all_eq_true.mpr hc
    simp only [hcall, Bool.true_and]
    rw [if_pos]
    simp only [List.isEmpty_iff, Bool.not_eq_true']
    rw [Bool.and_eq_false_iff]
    rcases Decidable.em (p = []) with hp0 | hp0
    · right
      have : c ≠ [] := fun hc0 => hne ⟨hp0, hc0⟩
      simp [this]
    · left
      simp [hp0]
  cases hp' : p with
  | nil =>
    subst hp'
    unfold pyFloat
    exact hunsigned
  | cons d rest =>
    have hd : d.isDigit = true := by
      subst hp'
      exact hp d (List.mem_cons_self d rest)
    subst hp'
    unfold pyFloat
    split
    · rename_i rest' heq
      rw [List.cons_append, List.cons.injEq] at heq
      exact absurd heq.1 (digit_ne hd (by decide))
    · rename_i rest' heq
      rw [List.cons_append, List.cons.injEq] at heq
      exact absurd heq.1 (digit_ne hd (by decide))
    · exact hunsigned



theorem rfindIdxAux_eq_none (ch : Char) (l : List Char) (h : ∀ x ∈ l, x ≠ ch) :
    rfindIdxAux ch l = none := by
  induction l with
  | nil => rfl
  | cons a rest ih =>
    unfold rfindIdxAux
    rw [ih (fun x hx => h x (List.mem_cons_of_mem a hx))]
    simp [h a (List.mem_cons_self a rest)]

theorem rfindIdxAux_append_last (ch : Char) (p c : List Char)
    (hc : ∀ x ∈ c, x ≠ ch) :
    rfindIdxAux ch (p ++ ch :: c) = some p.length := by
  induction p with
  | nil =>
    rw [List.nil_append]
    unfold rfindIdxAux
    rw [rfindIdxAux_eq_none ch c hc]
    simp
  | cons a p ih =>
    show rfindIdxAux ch (a :: (p ++ ch :: c)) = some (a :: p).length
    unfold rfindIdxAux
    rw [ih]
    simp

theorem rfindIdxAux_append_of_not_mem (ch : Char) (q : List Char)
    (h : ∀ x ∈ q, x ≠ ch) (p : List Char) :
    rfindIdxAux ch (p ++ q) = rfindIdxAux ch p := by
  induction p with
  | nil => simpa using rfindIdxAux_eq_none ch q h
  | cons a p ih =>
    show rfindIdxAux ch (a :: (p ++ q)) = rfindIdxAux ch (a :: p)
    unfold rfindIdxAux
    rw [ih]

theorem rfindIdxAux_lt_length (ch : Char) (l : List Char) (i : Nat)
    (h : rfindIdxAux ch l = some i) : i < l.length := by
  induction l generalizing i with
  | nil => cases h
  | cons a rest ih =>
    unfold rfindIdxAux at h
    cases hr : rfindIdxAux ch rest with
    | some j =>
      rw [hr] at h
      cases h
      have := ih j hr
      simp
      omega
    | none =>
      rw [hr] at h
      by_cases ha : a = ch
      · rw [if_pos ha] at h
        cases h
        simp
      · rw [if_neg ha] at h
        cases h

theorem splitOnChar_of_not_mem (l : List Char) (ch : Char) (h : ∀ x ∈ l, x ≠ ch) :
    splitOnChar l ch = [l] := by
  induction l with
  | nil => rfl
  | cons a rest ih =>
    unfold splitOnChar
    rw [if_neg (h a (List.mem_cons_self a rest)),
      ih (fun x hx => h x (List.mem_cons_of_mem a hx))]

theorem splitOnChar_append (p c : List Char) (ch : Char)
    (hp : ∀ x ∈ p, x ≠ ch) (hc : ∀ x ∈ c, x ≠ ch) :
    splitOnChar (p ++ ch :: c) ch = [p, c] := by
  induction p with
  | nil =>
    rw [List.nil_append]
    unfold splitOnChar
    rw [if_pos rfl, splitOnChar_of_not_mem c ch hc]
  | cons a p ih =>
    show splitOnChar (a :: (p ++ ch :: c)) ch = [a :: p, c]
    unfold splitOnChar
    rw [if_neg (hp a (List.mem_cons_self a p)),
      ih (fun x hx => hp x (List.mem_cons_of_mem a hx))]

theorem comma_token_not_junk5 (p c : List Char) (hpne : p ≠ []) :
    ¬(p ++ ',' :: c = [] ∨
      p ++ ',' :: c ∈ [['-'], ['.'], [','], "nan".data, "None".data]) := by
  intro h
  have hmem : ',' ∈ p ++ ',' :: c :=
    List.mem_append_right _ (List.mem_cons_self _ _)
  have hlen : 0 < p.length := List.length_pos.mpr hpne
  rcases h with h | h
  · exact absurd h (by simp)
  · simp only [List.mem_cons, List.not_mem_nil, or_false] at h
    rcases h with h | h | h | h | h
    · rw [h] at hmem; exact absurd hmem (by decide)
    · rw [h] at hmem; exact absurd hmem (by decide)
    · have := congrArg List.length h
      rw [List.length_append, List.length_cons] at this
      simp at this
      omega
    · rw [h] at hmem; exact absurd hmem (by decide)
    · rw [h] at hmem; exact absurd hmem (by decide)

theorem comma_token_not_junk3 (p c : List Char) (hpne : p ≠ []) :
    ¬(p ++ ',' :: c = [] ∨ p ++ ',' :: c ∈ [['-'], ['.'], [',']]) := by
  intro h
  have hmem : ',' ∈ p ++ ',' :: c :=
    List.mem_append_right _ (List.mem_cons_self _ _)
  have hlen : 0 < p.length := List.length_pos.mpr hpne
  rcases h with h | h
  · exact absurd h (by simp)
  · simp only [List.mem_cons, List.not_mem_nil, or_false] at h
    rcases h with h | h | h
    · rw [h] at hmem; exact absurd hmem (by decide)
    · rw [h] at hmem; exact absurd hmem (by decide)
    · have := congrArg List.length h
      rw [List.length_append, List.length_cons] at this
      simp at this
      omega

theorem dot_token_not_junk5 (p c : List Char) (hcne : c ≠ []) :
    ¬(p ++ '.' :: c = [] ∨
      p ++ '.' :: c ∈ [['-'], ['.'], [','], "nan".data, "None".data]) := by
  intro h
  have hmem : '.' ∈ p ++ '.' :: c :=
    List.mem_append_right _ (List.mem_cons_self _ _)
  have hlen : 0 < c.length := List.length_pos.mpr hcne
  rcases h with h | h
  · exact absurd h (by simp)
  · simp only [List.mem_cons, List.not_mem_nil, or_false] at h
    rcases h with h | h | h | h | h
    · rw [h] at hmem; exact absurd hmem (by decide)
    · have := congrArg List.length h
      rw [List.length_append, List.length_cons] at this
      simp at this
      omega
    · rw [h] at hmem; exact absurd hmem (by decide)
    · rw [h] at hmem; exact absurd hmem (by decide)
    · rw [h] at hmem; exact absurd hmem (by decide)

theorem dot_token_not_junk3 (p c : List Char) (hcne : c ≠ []) :
    ¬(p ++ '.' :: c = [] ∨ p ++ '.' :: c ∈ [['-'], ['.'], [',']]) := by
  intro h
  have hmem : '.' ∈ p ++ '.' :: c :=
    List.mem_append_right _ (List.mem_cons_self _ _)
  have hlen : 0 < c.length := List.length_pos.mpr hcne
  rcases h with h | h
  · exact absurd h (by simp)
  · simp only [List.mem_cons, List.not_mem_nil, or_false] at h
    rcases h with h | h | h
    · rw [h] at hmem; exact absurd hmem (by decide)
    · have := congrArg List.length h
      rw [List.length_append, List.length_cons] at this
      simp at this
      omega
    · rw [h] at hmem; exact absurd hmem (by decide)

theorem shapeTail_digit_head (x : Char) (l : List Char) (hx : x.isDigit = true) :
    shapeTail (x :: l) = false := by
  have hs := digit_not_sep hx
  rcases l with _ | ⟨a, _ | ⟨b, _ | ⟨c', r⟩⟩⟩ <;> simp [shapeTail, hs]

theorem shapeTail_all_digits (l : List Char) (h : ∀ x ∈ l, x.isDigit = true) :
    shapeTail l = false := by
  rcases l with _ | ⟨a, rest⟩
  · rfl
  · exact shapeTail_digit_head a rest (h a (List.mem_cons_self a rest))

theorem shapeTail_comma (c : List Char) (hc : ∀ x ∈ c, x.isDigit = true) :
    shapeTail (',' :: c) = decide (c.length = 2) := by
  rcases c with _ | ⟨x, _ | ⟨y, _ | ⟨z, r⟩⟩⟩
  · simp [shapeTail]
  · simp [shapeTail]
  · have hx : x.isDigit = true := hc x (by simp)
    have hy : y.isDigit = true := hc y (by simp)
    simp [shapeTail, isSepChar, hx, hy]
  · have hr : shapeTail r = false :=
      shapeTail_all_digits r (fun w hw => hc w (by simp [hw]))
    simp [shapeTail, hr]

theorem shapeAlt1_single_comma (p c : List Char) (hp : ∀ x ∈ p, x.isDigit = true)
    (hpne : p ≠ []) (hc : ∀ x ∈ c, x.isDigit = true) :
    shapeAlt1 (p ++ ',' :: c) = decide (p.length ≤ 3 ∧ c.length = 2) := by
  rcases p with _ | ⟨d1, p1⟩
  · exact absurd rfl hpne
  have hd1 : d1.isDigit = true := hp d1 (by simp)
  rcases p1 with _ | ⟨d2, p2⟩
  · simp [shapeAlt1, hd1, shapeTail_comma c hc]
  have hd2 : d2.isDigit = true := hp d2 (by simp)
  rcases p2 with _ | ⟨d3, p3⟩
  · have h1 : shapeTail (d2 :: ',' :: c) = false := shapeTail_digit_head _ _ hd2
    simp [shapeAlt1, hd1, hd2, h1, shapeTail_comma c hc]
  have hd3 : d3.isDigit = true := hp d3 (by simp)
  rcases p3 with _ | ⟨d4, p4⟩
  · have h1 : shapeTail (d2 :: d3 :: ',' :: c) = false := shapeTail_digit_head _ _ hd2
    have h2 : shapeTail (d3 :: ',' :: c) = false := shapeTail_digit_head _ _ hd3
    simp [shapeAlt1, hd1, hd2, hd3, h1, h2, shapeTail_comma c hc]
  · have hd4 : d4.isDigit = true := hp d4 (by simp)
    have h1 : shapeTail (d2 :: d3 :: d4 :: (p4 ++ ',' :: c)) = false :=
      shapeTail_digit_head _ _ hd2
    have h2 : shapeTail (d3 :: d4 :: (p4 ++ ',' :: c)) = false :=
      shapeTail_digit_head _ _ hd3
    have h3 : shapeTail (d4 :: (p4 ++ ',' :: c)) = false :=
      shapeTail_digit_head _ _ hd4
    have hlen : ¬((d1 :: d2 :: d3 :: d4 :: p4).length ≤ 3) := by simp
    simp [shapeAlt1, hd1, hd2, hd3, hd4, h1, h2, h3, hlen]

theorem exists_append_three {α : Type} (l : List α) (h : 3 ≤ l.length) :
    ∃ t x y z, l = t ++ [x, y, z] := by
  rcases List.eq_nil_or_concat l with rfl | ⟨t1, z, rfl⟩
  · simp at h
  rcases List.eq_nil_or_concat t1 with rfl | ⟨t2, y, rfl⟩
  · simp at h
  rcases List.eq_nil_or_concat t2 with rfl | ⟨t3, x, rfl⟩
  · simp at h
  exact ⟨t3, x, y, z, by simp⟩

theorem shapeAlt2_append3 (m : List Char) (s d1 d2 : Char) :
    shapeAlt2 (m ++ [s, d1, d2]) =
      (decide (1 ≤ m.length) && m.all Char.isDigit &&
        (isSepChar s && d1.isDigit && d2.isDigit)) := by
  unfold shapeAlt2
  have hlen : (m ++ [s, d1, d2]).length = m.length + 3 := by simp
  rw [hlen]
  have h3 : m.length + 3 - 3 = m.length := by omega
  rw [h3, List.take_left, List.drop_left]
  have h4 : decide (4 ≤ m.length + 3) = decide (1 ≤ m.length) := by
    by_cases h : 1 ≤ m.length
    · rw [decide_eq_true h, decide_eq_true (by omega : 4 ≤ m.length + 3)]
    · rw [decide_eq_false h, decide_eq_false (by omega : ¬4 ≤ m.length + 3)]
  rw [h4]

theorem shapeAlt2_single_comma (p c : List Char) (hp : ∀ x ∈ p, x.isDigit = true)
    (hpne : p ≠ []) (hc : ∀ x ∈ c, x.isDigit = true) :
    shapeAlt2 (p ++ ',' :: c) = decide (c.length = 2) := by
  rcases c with _ | ⟨c0, cr⟩
  · rcases List.eq_nil_or_concat p with rfl | ⟨q1, v, rfl⟩
    · exact absurd rfl hpne
    rcases List.eq_nil_or_concat q1 with rfl | ⟨q2, u, rfl⟩
    · simp [shapeAlt2]
    · have heq : ((q2.concat u).concat v) ++ ',' :: ([] : List Char)
          = q2 ++ [u, v, ','] := by simp
      rw [heq, shapeAlt2_append3]
      have hcm : (','.isDigit) = false := rfl
      simp [hcm]
  · rcases cr with _ | ⟨c1, cr2⟩
    · rcases List.eq_nil_or_concat p with rfl | ⟨q, y, rfl⟩
      · exact absurd rfl hpne
      have hy : y.isDigit = true := hp y (by simp)
      have heq : (q.concat y) ++ ',' :: [c0] = q ++ [y, ',', c0] := by simp
      rw [heq, shapeAlt2_append3]
      simp [digit_not_sep hy]
    · rcases cr2 with _ | ⟨c2, cr3⟩
      · have hc0 : c0.isDigit = true := hc c0 (by simp)
        have hc1 : c1.isDigit = true := hc c1 (by simp)
        have heq : p ++ ',' :: [c0, c1] = p ++ [',', c0, c1] := rfl
        rw [heq, shapeAlt2_append3]
        have h1 : 1 ≤ p.length := List.length_pos.mpr hpne
        have hall : p.all Char.isDigit = true := by
          rw [List.all_eq_true]; intro x hx; exact hp x hx
        simp [h1, hall, hc0, hc1, isSepChar]
      · obtain ⟨t, x, y, z, hteq⟩ :=
          exists_append_three (c0 :: c1 :: c2 :: cr3) (by simp)
        rw [hteq]
        have heq : p ++ ',' :: (t ++ [x, y, z]) = (p ++ ',' :: t) ++ [x, y, z] := by
          simp
        rw [heq, shapeAlt2_append3]
        have hcm : (','.isDigit) = false := rfl
        have hall : (p ++ ',' :: t).all Char.isDigit = false := by
          rw [List.all_append]; simp [List.all_cons, hcm]
        rw [hall]
        have hne : (t ++ [x, y, z]).length ≠ 2 := by simp
        simp [hne]

theorem monetaryShape_single_comma (p c : List Char) (hp : ∀ x ∈ p, x.isDigit = true)
    (hpne : p ≠ []) (hc : ∀ x ∈ c, x.isDigit = true) :
    monetaryShape (p ++ ',' :: c) = decide (c.length = 2) := by
  unfold monetaryShape
  rw [shapeAlt1_single_comma p c hp hpne hc, shapeAlt2_single_comma p c hp hpne hc]
  by_cases h : c.length = 2
  · simp [h]
  · simp [h]

theorem rfindIdxAux_isSome_of_mem (ch : Char) (l : List Char) (h : ch ∈ l) :
    ∃ i, rfindIdxAux ch l = some i := by
  induction l with
  | nil => cases h
  | cons a rest ih =>
    unfold rfindIdxAux
    cases hr : rfindIdxAux ch rest with
    | some j => exact ⟨j + 1, rfl⟩
    | none =>
      rcases List.mem_cons.mp h with rfl | hm
      · exact ⟨0, by rw [if_pos rfl]⟩
      · obtain ⟨j, hj⟩ := ih hm
        rw [hj] at hr
        cases hr

theorem parse_amount_single_comma (p c : List Char)
    (hp : ∀ x ∈ p, x.isDigit = true) (hc : ∀ x ∈ c, x.isDigit = true)
    (hpne : p ≠ []) :
    parse_amount ⟨p ++ ',' :: c⟩ =
      if c.length = 2 then (natOfDigits p : ℚ) + (natOfDigits c : ℚ) / 100
      else (natOfDigits (p ++ c) : ℚ) := by
  have hnsp : ∀ x ∈ p ++ ',' :: c, pyIsSpace x = false := by
    intro x hx
    rcases List.mem_append.mp hx with h | h
    · exact digit_not_space (hp x h)
    · rcases List.mem_cons.mp h with rfl | h
      · rfl
      · exact digit_not_space (hc x h)
  have hdat : (⟨p ++ ',' :: c⟩ : String).data = p ++ ',' :: c := rfl
  have hstrip : pyStripL (p ++ ',' :: c) = p ++ ',' :: c := pyStripL_eq_self _ hnsp
  have hlast : lastIs (p ++ ',' :: c) '-' = false := by
    rw [lastIs_append_cons]
    refine lastIs_eq_false_of _ _ ?_
    intro x hx
    rcases List.mem_cons.mp hx with rfl | h
    · decide
    · exact digit_ne (hc x h) (by decide)
  have hfil : (p ++ ',' :: c).filter
      (fun x => x.isDigit || x = '-' || x = '.' || x = ',') = p ++ ',' :: c := by
    rw [List.filter_eq_self]
    intro a ha
    rcases List.mem_append.mp ha with h | h
    · simp [hp a h]
    · rcases List.mem_cons.mp h with rfl | h
      · simp
      · simp [hc a h]
  have hhead : headIs (p ++ ',' :: c) '-' = false := by
    obtain ⟨d, p', rfl⟩ := List.exists_cons_of_ne_nil hpne
    have hd : d.isDigit = true := hp d (List.mem_cons_self d p')
    have hne : d ≠ '-' := digit_ne hd (by decide)
    show headIs (d :: (p' ++ ',' :: c)) '-' = false
    unfold headIs
    simp [hne]
  have hcdot : (p ++ ',' :: c).contains '.' = false := by
    rw [contains_eq_decide_mem]
    simp only [decide_eq_false_iff_not]
    intro hmem
    rcases List.mem_append.mp hmem with h | h
    · exact absurd (hp _ h) (by decide)
    · rcases List.mem_cons.mp h with h | h
      · exact absurd h (by decide)
      · exact absurd (hc _ h) (by decide)
  have hccom : (p ++ ',' :: c).contains ',' = true := by
    rw [contains_eq_decide_mem]
    simp
  have hsplit : splitOnChar (p ++ ',' :: c) ',' = [p, c] :=
    splitOnChar_append p c ','
      (fun x hx => digit_ne (hp x hx) (by decide))
      (fun x hx => digit_ne (hc x hx) (by decide))
  unfold parse_amount
  rw [if_neg (mk_ne_empty _ (by simp))]
  simp only [hdat, hstrip, hlast, hfil, hhead, hcdot, hccom, hsplit,
    Bool.false_and, Bool.and_false, Bool.false_or, Bool.or_false,
    if_false, Bool.false_eq_true, if_neg (comma_token_not_junk5 p c hpne),
    if_neg (comma_token_not_junk3 p c hpne)]
  simp only [List.length_cons, List.length_nil, List.getD, List.get?,
    Option.getD_some, true_and, if_true]
  have hmap : (p ++ ',' :: c).map (fun x => if x = ',' then '.' else x)
      = p ++ '.' :: c := by
    rw [List.map_append, List.map_cons, if_pos rfl,
      map_eq_self_of _ p (fun x hx => if_neg (digit_ne (hp x hx) (by decide))),
      map_eq_self_of _ c (fun x hx => if_neg (digit_ne (hc x hx) (by decide)))]
  have hflt : (p ++ ',' :: c).filter (· ≠ ',') = p ++ c := by
    have h1 : List.filter (fun x => decide (x ≠ ',')) p = p := by
      rw [List.filter_eq_self]
      intro a ha
      have hne : a ≠ ',' := digit_ne (hp a ha) (by decide)
      simp [hne]
    have h2 : List.filter (fun x => decide (x ≠ ',')) c = c := by
      rw [List.filter_eq_self]
      intro a ha
      have hne : a ≠ ',' := digit_ne (hc a ha) (by decide)
      simp [hne]
    show (p ++ ',' :: c).filter (fun x => decide (x ≠ ',')) = p ++ c
    rw [List.filter_append, List.filter_cons_of_neg (by simp), h1, h2]
  by_cases hlen : c.length = 2
  · rw [if_pos hlen, hmap, pyFloat_decimal p c hp hc (fun hand => hpne hand.1)]
    have hred : (match (some ((natOfDigits p : ℚ) + fracOfDigits c)) with
        | some v => v | none => (0 : ℚ)) = (natOfDigits p : ℚ) + fracOfDigits c := rfl
    rw [hred, if_pos hlen]
    unfold fracOfDigits
    rw [hlen]
    norm_num
  · rw [if_neg hlen, hflt, pyFloat_digits (p ++ c)
      (fun x hx => (List.mem_append.mp hx).elim (hp x) (hc x))
      (by simp [hpne])]
    have hred : (match (some ((natOfDigits (p ++ c) : ℚ))) with
        | some v => v | none => (0 : ℚ)) = (natOfDigits (p ++ c) : ℚ) := rfl
    rw [hred, if_neg hlen]

theorem universalParseAmount_single_comma (p c : List Char)
    (hp : ∀ x ∈ p, x.isDigit = true) (hc : ∀ x ∈ c, x.isDigit = true)
    (hpne : p ≠ []) (hcap : p.length + c.length ≤ 11) :
    universalParseAmount ⟨p ++ ',' :: c⟩ =
      if c.length = 2 then some ((natOfDigits p : ℚ) + (natOfDigits c : ℚ) / 100)
      else none := by
  have hnsp : ∀ x ∈ p ++ ',' :: c, pyIsSpace x = false := by
    intro x hx
    rcases List.mem_append.mp hx with h | h
    · exact digit_not_space (hp x h)
    · rcases List.mem_cons.mp h with rfl | h
      · rfl
      · exact digit_not_space (hc x h)
  have hdat : (⟨p ++ ',' :: c⟩ : String).data = p ++ ',' :: c := rfl
  have hstrip : pyStripL (p ++ ',' :: c) = p ++ ',' :: c := pyStripL_eq_self _ hnsp
  have hfdig : (p ++ ',' :: c).filter Char.isDigit = p ++ c := by
    rw [List.filter_append, List.filter_cons_of_neg (by decide),
      List.filter_eq_self.mpr hp, List.filter_eq_self.mpr hc]
  have hlastpar : lastIs (p ++ ',' :: c) ')' = false := by
    refine lastIs_eq_false_of _ _ ?_
    intro x hx
    rcases List.mem_append.mp hx with h | h
    · exact digit_ne (hp x h) (by decide)
    · rcases List.mem_cons.mp h with rfl | h
      · decide
      · exact digit_ne (hc x h) (by decide)
  have hlastm : lastIs (p ++ ',' :: c) '-' = false := by
    refine lastIs_eq_false_of _ _ ?_
    intro x hx
    rcases List.mem_append.mp hx with h | h
    · exact digit_ne (hp x h) (by decide)
    · rcases List.mem_cons.mp h with rfl | h
      · decide
      · exact digit_ne (hc x h) (by decide)
  have hheadp : headIs (p ++ ',' :: c) '(' = false := by
    obtain ⟨d, p', rfl⟩ := List.exists_cons_of_ne_nil hpne
    have hne : d ≠ '(' := digit_ne (hp d (List.mem_cons_self d p')) (by decide)
    show headIs (d :: (p' ++ ',' :: c)) '(' = false
    unfold headIs
    simp [hne]
  have hheadm : headIs (p ++ ',' :: c) '-' = false := by
    obtain ⟨d, p', rfl⟩ := List.exists_cons_of_ne_nil hpne
    have hne : d ≠ '-' := digit_ne (hp d (List.mem_cons_self d p')) (by decide)
    show headIs (d :: (p' ++ ',' :: c)) '-' = false
    unfold headIs
    simp [hne]
  have hheadu : headIs (p ++ ',' :: c) '−' = false := by
    obtain ⟨d, p', rfl⟩ := List.exists_cons_of_ne_nil hpne
    have hne : d ≠ '−' := digit_ne (hp d (List.mem_cons_self d p')) (by decide)
    show headIs (d :: (p' ++ ',' :: c)) '−' = false
    unfold headIs
    simp [hne]
  have hfclean : (p ++ ',' :: c).filter
      (fun ch => !(ch = '$' || pyIsSpace ch)) = p ++ ',' :: c := by
    rw [List.filter_eq_self]
    intro a ha
    have hsp : pyIsSpace a = false := hnsp a ha
    have hne : a ≠ '$' := by
      rcases List.mem_append.mp ha with h | h
      · exact digit_ne (hp a h) (by decide)
      · rcases List.mem_cons.mp h with rfl | h
        · decide
        · exact digit_ne (hc a h) (by decide)
    simp [hsp, hne]
  have hshape : monetaryShape (p ++ ',' :: c) = decide (c.length = 2) :=
    monetaryShape_single_comma p c hp hpne hc
  have hcdot : (p ++ ',' :: c).contains '.' = false := by
    rw [contains_eq_decide_mem]
    simp only [decide_eq_false_iff_not]
    intro hmem
    rcases List.mem_append.mp hmem with h | h
    · exact absurd (hp _ h) (by decide)
    · rcases List.mem_cons.mp h with h | h
      · exact absurd h (by decide)
      · exact absurd (hc _ h) (by decide)
  have hccom : (p ++ ',' :: c).contains ',' = true := by
    rw [contains_eq_decide_mem]
    simp
  have hmap : (p ++ ',' :: c).map (fun x => if x = ',' then '.' else x)
      = p ++ '.' :: c := by
    rw [List.map_append, List.map_cons, if_pos rfl,
      map_eq_self_of _ p (fun x hx => if_neg (digit_ne (hp x hx) (by decide))),
      map_eq_self_of _ c (fun x hx => if_neg (digit_ne (hc x hx) (by decide)))]
  have hrfind : rfindIdx (p ++ ',' :: c) ',' = (p.length : Int) := by
    unfold rfindIdx
    rw [rfindIdxAux_append_last ',' p c
      (fun x hx => digit_ne (hc x hx) (by decide))]
  unfold universalParseAmount
  rw [if_neg (mk_ne_empty _ (by simp))]
  simp only [hdat, hstrip, hfdig, hlastpar, hlastm, hheadp, hheadm, hheadu,
    hfclean, hshape, hcdot, hccom, hrfind,
    Bool.false_and, Bool.and_false, Bool.false_or, Bool.or_false, if_false,
    Bool.false_eq_true, if_true]
  rw [if_neg (by
    rw [List.length_append]
    push_neg
    constructor
    · simp [hpne]
    · omega)]
  by_cases hlen : c.length = 2
  · rw [if_neg (by rw [hlen]; simp)]
    rw [if_pos (by
      rw [List.length_append, List.length_cons, hlen]
      push_cast
      omega)]
    rw [hmap, pyFloat_decimal p c hp hc (fun hand => hpne hand.1)]
    rw [if_pos hlen]
    unfold fracOfDigits
    rw [hlen]
    norm_num
  · rw [if_pos (by simp [hlen]), if_neg hlen]

theorem parse_amount_comma_decimal (p c : List Char)
    (hp : ∀ x ∈ p, x.isDigit = true ∨ x = '.') (hdot : '.' ∈ p)
    (hc : ∀ x ∈ c, x.isDigit = true) (hcne : c ≠ [])
    (hhead : ∃ d p', p = d :: p' ∧ d.isDigit = true) :
    parse_amount ⟨p ++ ',' :: c⟩ =
      (natOfDigits (p.filter (· ≠ '.')) : ℚ) + fracOfDigits c := by
  have hpne : p ≠ [] := by
    obtain ⟨d, p', hpd, _⟩ := hhead
    rw [hpd]
    simp
  have hpnm : ∀ x ∈ p, x ≠ ',' := by
    intro x hx
    rcases hp x hx with h | rfl
    · exact digit_ne h (by decide)
    · decide
  have hnsp : ∀ x ∈ p ++ ',' :: c, pyIsSpace x = false := by
    intro x hx
    rcases List.mem_append.mp hx with h | h
    · rcases hp x h with h' | rfl
      · exact digit_not_space h'
      · rfl
    · rcases List.mem_cons.mp h with rfl | h
      · rfl
      · exact digit_not_space (hc x h)
  have hdat : (⟨p ++ ',' :: c⟩ : String).data = p ++ ',' :: c := rfl
  have hstrip : pyStripL (p ++ ',' :: c) = p ++ ',' :: c := pyStripL_eq_self _ hnsp
  have hlast : lastIs (p ++ ',' :: c) '-' = false := by
    rw [lastIs_append_cons]
    refine lastIs_eq_false_of _ _ ?_
    intro x hx
    rcases List.mem_cons.mp hx with rfl | h
    · decide
    · exact digit_ne (hc x h) (by decide)
  have hfil : (p ++ ',' :: c).filter
      (fun x => x.isDigit || x = '-' || x = '.' || x = ',') = p ++ ',' :: c := by
    rw [List.filter_eq_self]
    intro a ha
    rcases List.mem_append.mp ha with h | h
    · rcases hp a h with h' | rfl
      · simp [h']
      · simp
    · rcases List.mem_cons.mp h with rfl | h
      · simp
      · simp [hc a h]
  have hheadm : headIs (p ++ ',' :: c) '-' = false := by
    obtain ⟨d, p', hpd, hd⟩ := hhead
    subst hpd
    have hne : d ≠ '-' := digit_ne hd (by decide)
    show headIs (d :: (p' ++ ',' :: c)) '-' = false
    unfold headIs
    simp [hne]
  have hcdot : (p ++ ',' :: c).contains '.' = true := by
    rw [contains_eq_decide_mem]
    simp [List.mem_append.mpr (Or.inl hdot)]
  have hccom : (p ++ ',' :: c).contains ',' = true := by
    rw [contains_eq_decide_mem]
    simp
  have hrfc : rfindIdx (p ++ ',' :: c) ',' = (p.length : Int) := by
    unfold rfindIdx
    rw [rfindIdxAux_append_last ',' p c
      (fun x hx => digit_ne (hc x hx) (by decide))]
  obtain ⟨i, hi⟩ := rfindIdxAux_isSome_of_mem '.' p hdot
  have hilt : i < p.length := rfindIdxAux_lt_length '.' p i hi
  have hrfd : rfindIdx (p ++ ',' :: c) '.' = (i : Int) := by
    unfold rfindIdx
    rw [rfindIdxAux_append_of_not_mem '.' (',' :: c) (by
      intro x hx
      rcases List.mem_cons.mp hx with rfl | h
      · decide
      · exact digit_ne (hc x h) (by decide)) p, hi]
  have hfc : List.filter (fun x => decide (x ≠ '.')) c = c := by
    rw [List.filter_eq_self]
    intro a ha
    have hne : a ≠ '.' := digit_ne (hc a ha) (by decide)
    simp [hne]
  have hflt : (p ++ ',' :: c).filter (· ≠ '.')
      = p.filter (· ≠ '.') ++ ',' :: c := by
    show (p ++ ',' :: c).filter (fun x => decide (x ≠ '.'))
      = p.filter (fun x => decide (x ≠ '.')) ++ ',' :: c
    rw [List.filter_append, List.filter_cons_of_pos (by decide), hfc]
  have hmap : (p.filter (· ≠ '.') ++ ',' :: c).map
      (fun x => if x = ',' then '.' else x) = p.filter (· ≠ '.') ++ '.' :: c := by
    rw [List.map_append, List.map_cons, if_pos rfl,
      map_eq_self_of _ _ (fun x hx => if_neg (by
        have hxp : x ∈ p := List.mem_of_mem_filter hx
        exact hpnm x hxp)),
      map_eq_self_of _ c (fun x hx => if_neg (digit_ne (hc x hx) (by decide)))]
  have hpfd : ∀ x ∈ p.filter (· ≠ '.'), x.isDigit = true := by
    intro x hx
    have hxp : x ∈ p := List.mem_of_mem_filter hx
    have hxne : x ≠ '.' := by
      have := (List.mem_filter.mp hx).2
      rw [decide_eq_true_eq] at this
      exact this
    rcases hp x hxp with h | rfl
    · exact h
    · exact absurd rfl hxne
  unfold parse_amount
  rw [if_neg (mk_ne_empty _ (by simp))]
  simp only [hdat, hstrip, hlast, hfil, hheadm, hcdot, hccom, hrfc, hrfd,
    Bool.false_and, Bool.and_false, Bool.false_or, Bool.or_false, if_false,
    Bool.true_and, Bool.and_true, Bool.false_eq_true, if_true]
  rw [if_neg (comma_token_not_junk5 p c hpne),
    if_neg (comma_token_not_junk3 p c hpne)]
  rw [if_pos (by omega)]
  rw [hflt, hmap, pyFloat_decimal _ c hpfd hc (fun hand => hcne hand.2)]

theorem parse_amount_dot_decimal (p c : List Char)
    (hp : ∀ x ∈ p, x.isDigit = true ∨ x = ',') (hcom : ',' ∈ p)
    (hc : ∀ x ∈ c, x.isDigit = true) (hcne : c ≠ [])
    (hhead : ∃ d p', p = d :: p' ∧ d.isDigit = true) :
    parse_amount ⟨p ++ '.' :: c⟩ =
      (natOfDigits (p.filter (· ≠ ',')) : ℚ) + fracOfDigits c := by
  have hpne : p ≠ [] := by
    obtain ⟨d, p', hpd, _⟩ := hhead
    rw [hpd]
    simp
  have hpnd : ∀ x ∈ p, x ≠ '.' := by
    intro x hx
    rcases hp x hx with h | rfl
    · exact digit_ne h (by decide)
    · decide
  have hnsp : ∀ x ∈ p ++ '.' :: c, pyIsSpace x = false := by
    intro x hx
    rcases List.mem_append.mp hx with h | h
    · rcases hp x h with h' | rfl
      · exact digit_not_space h'
      · rfl
    · rcases List.mem_cons.mp h with rfl | h
      · rfl
      · exact digit_not_space (hc x h)
  have hdat : (⟨p ++ '.' :: c⟩ : String).data = p ++ '.' :: c := rfl
  have hstrip : pyStripL (p ++ '.' :: c) = p ++ '.' :: c := pyStripL_eq_self _ hnsp
  have hlast : lastIs (p ++ '.' :: c) '-' = false := by
    rw [lastIs_append_cons]
    refine lastIs_eq_false_of _ _ ?_
    intro x hx
    rcases List.mem_cons.mp hx with rfl | h
    · decide
    · exact digit_ne (hc x h) (by decide)
  have hfil : (p ++ '.' :: c).filter
      (fun x => x.isDigit || x = '-' || x = '.' || x = ',') = p ++ '.' :: c := by
    rw [List.filter_eq_self]
    intro a ha
    rcases List.mem_append.mp ha with h | h
    · rcases hp a h with h' | rfl
      · simp [h']
      · simp
    · rcases List.mem_cons.mp h with rfl | h
      · simp
      · simp [hc a h]
  have hheadm : headIs (p ++ '.' :: c) '-' = false := by
    obtain ⟨d, p', hpd, hd⟩ := hhead
    subst hpd
    have hne : d ≠ '-' := digit_ne hd (by decide)
    show headIs (d :: (p' ++ '.' :: c)) '-' = false
    unfold headIs
    simp [hne]
  have hcdot : (p ++ '.' :: c).contains '.' = true := by
    rw [contains_eq_decide_mem]
    simp
  have hccom : (p ++ '.' :: c).contains ',' = true := by
    rw [contains_eq_decide_mem]
    simp [List.mem_append.mpr (Or.inl hcom)]
  have hrfd : rfindIdx (p ++ '.' :: c) '.' = (p.length : Int) := by
    unfold rfindIdx
    rw [rfindIdxAux_append_last '.' p c
      (fun x hx => digit_ne (hc x hx) (by decide))]
  obtain ⟨i, hi⟩ := rfindIdxAux_isSome_of_mem ',' p hcom
  have hilt : i < p.length := rfindIdxAux_lt_length ',' p i hi
  have hrfc : rfindIdx (p ++ '.' :: c) ',' = (i : Int) := by
    unfold rfindIdx
    rw [rfindIdxAux_append_of_not_mem ',' ('.' :: c) (by
      intro x hx
      rcases List.mem_cons.mp hx with rfl | h
      · decide
      · exact digit_ne (hc x h) (by decide)) p, hi]
  have hfc : List.filter (fun x => decide (x ≠ ',')) c = c := by
    rw [List.filter_eq_self]
    intro a ha
    have hne : a ≠ ',' := digit_ne (hc a ha) (by decide)
    simp [hne]
  have hflt : (p ++ '.' :: c).filter (· ≠ ',')
      = p.filter (· ≠ ',') ++ '.' :: c := by
    show (p ++ '.' :: c).filter (fun x => decide (x ≠ ','))
      = p.filter (fun x => decide (x ≠ ',')) ++ '.' :: c
    rw [List.filter_append, List.filter_cons_of_pos (by decide), hfc]
  have hpfd : ∀ x ∈ p.filter (· ≠ ','), x.isDigit = true := by
    intro x hx
    have hxp : x ∈ p := List.mem_of_mem_filter hx
    have hxne : x ≠ ',' := by
      have := (List.mem_filter.mp hx).2
      rw [decide_eq_true_eq] at this
      exact this
    rcases hp x hxp with h | rfl
    · exact h
    · exact absurd rfl hxne
  unfold parse_amount
  rw [if_neg (mk_ne_empty _ (by simp))]
  simp only [hdat, hstrip, hlast, hfil, hheadm, hcdot, hccom, hrfc, hrfd,
    Bool.false_and, Bool.and_false, Bool.false_or, Bool.or_false, if_false,
    Bool.true_and, Bool.and_true, Bool.false_eq_true, if_true]
  rw [if_neg (dot_token_not_junk5 p c hcne),
    if_neg (dot_token_not_junk3 p c hcne)]
  rw [if_neg (by omega)]
  rw [hflt, pyFloat_decimal _ c hpfd hc (fun hand => hcne hand.2)]

/-! ### Helper lemmas for the text-cleaning idempotence theorems -/

theorem dropWhile_head_false (p : Char → Bool) (l : List Char) (x : Char) (xs : List Char)
    (h : l.dropWhile p = x :: xs) : p x = false := by
  have := List.head?_dropWhile_not p l
  rw [h] at this
  simpa using this

theorem pyStripL_within (l : List Char) : pyStripL l <:+: l := by
  obtain ⟨pre1, hpre1⟩ := List.dropWhile_suffix (l := l) pyIsSpace
  obtain ⟨pre2, hpre2⟩ := List.dropWhile_suffix
    (l := (l.dropWhile pyIsSpace).reverse) pyIsSpace
  refine ⟨pre1, pre2.reverse, ?_⟩
  have h1 : l.dropWhile pyIsSpace =
      ((l.dropWhile pyIsSpace).reverse.dropWhile pyIsSpace).reverse ++ pre2.reverse := by
    have h := congrArg List.reverse hpre2
    rw [List.reverse_append] at h
    rw [List.reverse_reverse] at h
    exact h.symm
  show pre1 ++ pyStripL l ++ pre2.reverse = l
  unfold pyStripL
  rw [List.append_assoc, ← h1, hpre1]

theorem mem_pyStripL (l : List Char) (x : Char) (h : x ∈ pyStripL l) : x ∈ l :=
  (pyStripL_within l).subset h

theorem pyStripL_head_nonspace (l : List Char) (x : Char)
    (h : (pyStripL l).head? = some x) : pyIsSpace x = false := by
  unfold pyStripL at h
  rw [List.head?_reverse] at h
  obtain ⟨pre2, hpre2⟩ := List.dropWhile_suffix
    (l := (l.dropWhile pyIsSpace).reverse) pyIsSpace
  rcases hcase : (l.dropWhile pyIsSpace).reverse.dropWhile pyIsSpace with _ | ⟨a, as⟩
  · rw [hcase] at h
    cases h
  · have hne : (l.dropWhile pyIsSpace).reverse.dropWhile pyIsSpace ≠ [] := by
      rw [hcase]
      simp
    have hlast : ((l.dropWhile pyIsSpace).reverse.dropWhile pyIsSpace).getLast?
        = (l.dropWhile pyIsSpace).reverse.getLast? := by
      have h3 := (List.getLast?_append_of_ne_nil pre2 hne).symm
      rw [hpre2] at h3
      exact h3
    rw [hlast, List.getLast?_reverse] at h
    rcases hs1c : l.dropWhile pyIsSpace with _ | ⟨b, bs⟩
    · rw [hs1c] at h
      cases h
    · rw [hs1c] at h
      simp only [List.head?_cons, Option.some.injEq] at h
      rw [← h]
      exact dropWhile_head_false pyIsSpace l b bs hs1c

theorem pyStripL_last_nonspace (l : List Char) (x : Char)
    (h : (pyStripL l).getLast? = some x) : pyIsSpace x = false := by
  unfold pyStripL at h
  rw [List.getLast?_reverse] at h
  rcases hcase : (l.dropWhile pyIsSpace).reverse.dropWhile pyIsSpace with _ | ⟨a, as⟩
  · rw [hcase] at h
    cases h
  · rw [hcase] at h
    simp only [List.head?_cons, Option.some.injEq] at h
    rw [← h]
    exact dropWhile_head_false pyIsSpace _ a as hcase

theorem pyStripL_eq_self_of_ends (l : List Char)
    (hh : ∀ x, l.head? = some x → pyIsSpace x = false)
    (hl : ∀ x, l.getLast? = some x → pyIsSpace x = false) :
    pyStripL l = l := by
  rcases l with _ | ⟨a, as⟩
  · rfl
  · have ha : pyIsSpace a = false := hh a rfl
    have hd1 : List.dropWhile pyIsSpace (a :: as) = a :: as :=
      List.dropWhile_cons_of_neg (by simp [ha])
    rcases hr : (a :: as).reverse with _ | ⟨b, bs⟩
    · exact absurd hr (by simp)
    · have hb : pyIsSpace b = false := by
        refine hl b ?_
        have h2 : (a :: as).getLast? = (a :: as).reverse.head? :=
          (List.head?_reverse _).symm
        rw [h2, hr]
        rfl
      have hd2 : List.dropWhile pyIsSpace (b :: bs) = b :: bs :=
        List.dropWhile_cons_of_neg (by simp [hb])
      unfold pyStripL
      rw [hd1, hr, hd2, ← hr, List.reverse_reverse]

theorem pyStripL_idem (l : List Char) : pyStripL (pyStripL l) = pyStripL l :=
  pyStripL_eq_self_of_ends _ (pyStripL_head_nonspace l) (pyStripL_last_nonspace l)

theorem collapseWsAux_space_blank (l : List Char) : ∀ b x, x ∈ collapseWsAux b l →
    pyIsSpace x = true → x = ' ' := by
  induction l with
  | nil => intro b x hx; cases hx
  | cons c rest ih =>
    intro b x hx hsp
    unfold collapseWsAux at hx
    by_cases hc : pyIsSpace c = true
    · rw [if_pos hc] at hx
      cases b with
      | true => exact ih true x hx hsp
      | false =>
        rw [if_neg (by simp)] at hx
        rcases List.mem_cons.mp hx with rfl | hx'
        · rfl
        · exact ih true x hx' hsp
    · rw [if_neg hc] at hx
      rcases List.mem_cons.mp hx with rfl | hx'
      · exact absurd hsp hc
      · exact ih false x hx' hsp

theorem collapseWsAux_mem (l : List Char) : ∀ b x, x ∈ collapseWsAux b l →
    x = ' ' ∨ x ∈ l := by
  induction l with
  | nil => intro b x hx; cases hx
  | cons c rest ih =>
    intro b x hx
    unfold collapseWsAux at hx
    by_cases hc : pyIsSpace c = true
    · rw [if_pos hc] at hx
      cases b with
      | true =>
        rcases ih true x hx with h | h
        · exact Or.inl h
        · exact Or.inr (List.mem_cons_of_mem c h)
      | false =>
        rw [if_neg (by simp)] at hx
        rcases List.mem_cons.mp hx with rfl | hx'
        · exact Or.inl rfl
        · rcases ih true x hx' with h | h
          · exact Or.inl h
          · exact Or.inr (List.mem_cons_of_mem c h)
    · rw [if_neg hc] at hx
      rcases List.mem_cons.mp hx with rfl | hx'
      · exact Or.inr (List.mem_cons_self x rest)
      · rcases ih false x hx' with h | h
        · exact Or.inl h
        · exact Or.inr (List.mem_cons_of_mem c h)

theorem collapseWsAux_head_true (l : List Char) : ∀ x xs,
    collapseWsAux true l = x :: xs → pyIsSpace x = false := by
  induction l with
  | nil => intro x xs h; cases h
  | cons c rest ih =>
    intro x xs h
    unfold collapseWsAux at h
    by_cases hc : pyIsSpace c = true
    · rw [if_pos hc, if_pos rfl] at h
      exact ih x xs h
    · rw [if_neg hc] at h
      rw [List.cons.injEq] at h
      rw [← h.1]
      exact Bool.of_not_eq_true hc

theorem collapseWsAux_chain (l : List Char) : ∀ b, (collapseWsAux b l).Chain'
    (fun a d => pyIsSpace a = false ∨ pyIsSpace d = false) := by
  induction l with
  | nil => intro b; exact List.chain'_nil
  | cons c rest ih =>
    intro b
    unfold collapseWsAux
    by_cases hc : pyIsSpace c = true
    · rw [if_pos hc]
      cases b with
      | true => exact ih true
      | false =>
        rw [if_neg (by simp)]
        rw [List.chain'_cons']
        refine ⟨?_, ih true⟩
        intro y hy
        right
        rcases hh : collapseWsAux true rest with _ | ⟨z, zs⟩
        · rw [hh] at hy
          cases hy
        · rw [hh] at hy
          simp only [List.head?_cons, Option.mem_def, Option.some.injEq] at hy
          rw [← hy]
          exact collapseWsAux_head_true rest z zs hh
    · rw [if_neg hc]
      rw [List.chain'_cons']
      refine ⟨?_, ih false⟩
      intro y hy
      left
      exact Bool.of_not_eq_true hc

theorem collapseWsAux_eq_self (l : List Char)
    (hch : l.Chain' (fun a d => pyIsSpace a = false ∨ pyIsSpace d = false))
    (hsp : ∀ x ∈ l, pyIsSpace x = true → x = ' ') :
    collapseWsAux false l = l ∧
      ((∀ x xs, l = x :: xs → pyIsSpace x = false) → collapseWsAux true l = l) := by
  induction l with
  | nil => exact ⟨rfl, fun _ => rfl⟩
  | cons c rest ih =>
    obtain ⟨hR, hch'⟩ := List.chain'_cons'.mp hch
    have hsp' : ∀ x ∈ rest, pyIsSpace x = true → x = ' ' :=
      fun x hx => hsp x (List.mem_cons_of_mem c hx)
    obtain ⟨ih1, ih2⟩ := ih hch' hsp'
    by_cases hc : pyIsSpace c = true
    · have hcb : c = ' ' := hsp c (List.mem_cons_self c rest) hc
      have hrest : collapseWsAux true rest = rest := by
        refine ih2 ?_
        intro x xs hx
        have := hR x (by rw [hx]; rfl)
        rcases this with h | h
        · rw [h] at hc
          cases hc
        · exact h
      constructor
      · show collapseWsAux false (c :: rest) = c :: rest
        unfold collapseWsAux
        rw [if_pos hc, if_neg (by simp), hrest, hcb]
      · intro hhead
        exact absurd (hhead c rest rfl) (by rw [hc]; simp)
    · have hcf : pyIsSpace c = false := Bool.of_not_eq_true hc
      constructor
      · show collapseWsAux false (c :: rest) = c :: rest
        unfold collapseWsAux
        rw [if_neg hc, ih1]
      · intro _
        show collapseWsAux true (c :: rest) = c :: rest
        unfold collapseWsAux
        rw [if_neg hc, ih1]

theorem getLast?_cons_of_ne (x : Char) (l : List Char) (h : l ≠ []) :
    (x :: l).getLast? = l.getLast? := by
  obtain ⟨y, ys, rfl⟩ := List.exists_cons_of_ne_nil h
  exact List.getLast?_cons_cons

theorem collapseWsAux_getLast (l : List Char) (a : Char) (ha : pyIsSpace a = false) :
    ∀ b, (collapseWsAux b (l ++ [a])).getLast? = some a := by
  induction l with
  | nil =>
    intro b
    show (collapseWsAux b [a]).getLast? = some a
    unfold collapseWsAux
    rw [if_neg (by simp [ha])]
    rfl
  | cons c rest ih =>
    intro b
    show (collapseWsAux b (c :: (rest ++ [a]))).getLast? = some a
    unfold collapseWsAux
    by_cases hc : pyIsSpace c = true
    · rw [if_pos hc]
      cases b with
      | true => exact ih true
      | false =>
        rw [if_neg (by simp)]
        have h1 := ih true
        have hne : collapseWsAux true (rest ++ [a]) ≠ [] := by
          intro h0
          rw [h0] at h1
          cases h1
        rw [getLast?_cons_of_ne _ _ hne]
        exact h1
    · rw [if_neg hc]
      have h1 := ih false
      have hne : collapseWsAux false (rest ++ [a]) ≠ [] := by
        intro h0
        rw [h0] at h1
        cases h1
      rw [getLast?_cons_of_ne _ _ hne]
      exact h1

theorem upperPairs_value_fixed : ∀ pr ∈ upperPairs, pyUpperChar pr.2 = pr.2 := by
  decide

theorem pyUpperChar_idem (c : Char) : pyUpperChar (pyUpperChar c) = pyUpperChar c := by
  cases hf : upperPairs.find? (fun p => p.1 = c) with
  | none =>
    have h1 : pyUpperChar c = c := by
      unfold pyUpperChar
      rw [hf]
      rfl
    rw [h1]
    exact h1
  | some pr =>
    have hmem := List.mem_of_find?_eq_some hf
    have h1 : pyUpperChar c = pr.2 := by
      unfold pyUpperChar
      rw [hf]
      rfl
    rw [h1]
    exact upperPairs_value_fixed pr hmem

theorem nfdPairs_decomp_fixed : ∀ pr ∈ nfdPairs, pyUpperChar pr.1 = pr.1 →
    ∀ d ∈ pr.2.filter (fun x => !isMnMark x), normChar d = [d] := by
  decide

theorem normChar_fixed_of_mem (c d : Char) (h : d ∈ normChar c) : normChar d = [d] := by
  unfold normChar at h
  cases hf : nfdPairs.find? (fun p => p.1 = pyUpperChar c) with
  | none =>
    have hnf : nfdChar (pyUpperChar c) = [pyUpperChar c] := by
      unfold nfdChar
      rw [hf]
      rfl
    rw [hnf] at h
    rw [List.mem_filter] at h
    obtain ⟨hd, hmn⟩ := h
    rw [List.mem_singleton] at hd
    subst hd
    unfold normChar
    rw [pyUpperChar_idem, hnf]
    simp [hmn]
  | some pr =>
    have hmem := List.mem_of_find?_eq_some hf
    have hnf : nfdChar (pyUpperChar c) = pr.2 := by
      unfold nfdChar
      rw [hf]
      rfl
    rw [hnf] at h
    have hkey : pr.1 = pyUpperChar c := by
      have := List.find?_some hf
      rw [decide_eq_true_eq] at this
      exact this
    have hfix : pyUpperChar pr.1 = pr.1 := by
      rw [hkey]
      rw [pyUpperChar_idem]
    exact nfdPairs_decomp_fixed pr hmem hfix d h

theorem flatMap_normChar_eq_self (l : List Char) (h : ∀ x ∈ l, normChar x = [x]) :
    l.flatMap normChar = l := by
  induction l with
  | nil => rfl
  | cons c rest ih =>
    rw [List.flatMap_cons, h c (List.mem_cons_self c rest),
      ih (fun x hx => h x (List.mem_cons_of_mem c hx))]
    rfl

theorem normalize_text_idem (s : String) :
    normalize_text (normalize_text s) = normalize_text s := by
  by_cases hs : s = ""
  · rw [hs]
    rfl
  · unfold normalize_text
    rw [if_neg hs]
    by_cases htn : pyStripL (collapseWsL (s.data.flatMap normChar)) = []
    · rw [htn]
      rfl
    · have hne : (⟨pyStripL (collapseWsL (s.data.flatMap normChar))⟩ : String) ≠ "" :=
        fun he => htn (congrArg String.data he)
      rw [if_neg hne]
      congr 1
      have hdat : (⟨pyStripL (collapseWsL (s.data.flatMap normChar))⟩ : String).data
          = pyStripL (collapseWsL (s.data.flatMap normChar)) := rfl
      rw [hdat]
      have hfix : ∀ x ∈ pyStripL (collapseWsL (s.data.flatMap normChar)),
          normChar x = [x] := by
        intro x hx
        have hx1 : x ∈ collapseWsL (s.data.flatMap normChar) := mem_pyStripL _ x hx
        rcases collapseWsAux_mem (s.data.flatMap normChar) false x hx1 with rfl | hx2
        · decide
        · obtain ⟨c, _, hc2⟩ := List.mem_flatMap.mp hx2
          exact normChar_fixed_of_mem c x hc2
      rw [flatMap_normChar_eq_self _ hfix]
      have hch : (pyStripL (collapseWsL (s.data.flatMap normChar))).Chain'
          (fun a d => pyIsSpace a = false ∨ pyIsSpace d = false) := by
        have h0 : (collapseWsL (s.data.flatMap normChar)).Chain'
            (fun a d => pyIsSpace a = false ∨ pyIsSpace d = false) :=
          collapseWsAux_chain (s.data.flatMap normChar) false
        exact h0.infix (pyStripL_within _)
      have hsp : ∀ x ∈ pyStripL (collapseWsL (s.data.flatMap normChar)),
          pyIsSpace x = true → x = ' ' := by
        intro x hx
        exact collapseWsAux_space_blank (s.data.flatMap normChar) false x
          (mem_pyStripL _ x hx)
      have hcol : collapseWsL (pyStripL (collapseWsL (s.data.flatMap normChar)))
          = pyStripL (collapseWsL (s.data.flatMap normChar)) :=
        (collapseWsAux_eq_self _ hch hsp).1
      show pyStripL (collapseWsL (pyStripL (collapseWsL (s.data.flatMap normChar))))
        = pyStripL (collapseWsL (s.data.flatMap normChar))
      rw [hcol, pyStripL_idem]

theorem clean_text_idem_of_ctrl_free (s : String) (h : ∀ x ∈ s.data, isCtrl x = false) :
    clean_text (clean_text s) = clean_text s := by
  unfold clean_text
  have hctrl : ∀ x ∈ collapseWsL (pyStripL s.data), isCtrl x = false := by
    intro x hx
    rcases collapseWsAux_mem (pyStripL s.data) false x hx with rfl | hx2
    · decide
    · exact h x (mem_pyStripL s.data x hx2)
  have hfil : (collapseWsL (pyStripL s.data)).filter (fun c => !isCtrl c)
      = collapseWsL (pyStripL s.data) := by
    rw [List.filter_eq_self]
    intro a ha
    rw [hctrl a ha]
    rfl
  rw [hfil]
  congr 1
  have hdat : (⟨collapseWsL (pyStripL s.data)⟩ : String).data
      = collapseWsL (pyStripL s.data) := rfl
  rw [hdat]
  have hstrip : pyStripL (collapseWsL (pyStripL s.data))
      = collapseWsL (pyStripL s.data) := by
    refine pyStripL_eq_self_of_ends _ ?_ ?_
    · intro x hx
      rcases hu : pyStripL s.data with _ | ⟨a, as⟩
      · rw [hu] at hx
        cases hx
      · have ha : pyIsSpace a = false := by
          refine pyStripL_head_nonspace s.data a ?_
          rw [hu]
          rfl
        rw [hu] at hx
        show pyIsSpace x = false
        have hx' : (collapseWsAux false (a :: as)).head? = some x := hx
        unfold collapseWsAux at hx'
        rw [if_neg (by simp [ha])] at hx'
        simp only [List.head?_cons, Option.some.injEq] at hx'
        rw [← hx']
        exact ha
    · intro x hx
      rcases List.eq_nil_or_concat (pyStripL s.data) with hu | ⟨q, b, hu⟩
      · rw [hu] at hx
        cases hx
      · have hb : pyIsSpace b = false := by
          refine pyStripL_last_nonspace s.data b ?_
          rw [hu]
          simp
        have hlast : (collapseWsL (q ++ [b])).getLast? = some b :=
          collapseWsAux_getLast q b hb false
        rw [List.concat_eq_append] at hu
        rw [hu] at hx
        rw [hlast] at hx
        rw [Option.some.injEq] at hx
        rw [← hx]
        exact hb
  rw [hstrip]
  have hch : (collapseWsL (pyStripL s.data)).Chain'
      (fun a d => pyIsSpace a = false ∨ pyIsSpace d = false) :=
    collapseWsAux_chain (pyStripL s.data) false
  have hsp : ∀ x ∈ collapseWsL (pyStripL s.data), pyIsSpace x = true → x = ' ' :=
    collapseWsAux_space_blank (pyStripL s.data) false
  have hcol : collapseWsL (collapseWsL (pyStripL s.data))
      = collapseWsL (pyStripL s.data) :=
    (collapseWsAux_eq_self _ hch hsp).1
  rw [hcol]
  exact hfil

/-! ### Remaining claim theorems -/

/-- C5.  `UniversalBankExtractor._parse_amount` returns the `None`
sentinel — never the number zero — for every token whose digit count
exceeds 11, and (concretely) for tokens without a monetary shape. -/
theorem C5_unparsed_sentinel :
    (∀ s : String, 11 < digitCount s → universalParseAmount s = none) ∧
    universalParseAmount "abc" = none ∧
    universalParseAmount "$$" = none ∧
    universalParseAmount "12.34.56" = none := by
  refine ⟨?_, by decide, by decide, by decide⟩
  intro s h
  unfold universalParseAmount
  by_cases hs : s = ""
  · rw [if_pos hs]
  · rw [if_neg hs]
    dsimp only
    rw [if_pos]
    right
    have := digitCount_pyStripL s.data
    unfold digitCount at h
    omega

/-- C5, witness. -/
theorem C5_unparsed_sentinel_witness :
    universalParseAmount "999888777666555" = none :=
  C5_unparsed_sentinel.1 "999888777666555" (by decide)

/-- C5, counterexample.  `BaseParser.parse_amount`, also cited by the
claim, has no sentinel: it returns the number `0.0` for an unparsable
token, and it applies no digit-count guard — a 12-digit reference
number parses to that number. -/
theorem C5_sentinel_counterexample :
    parse_amount "abc" = 0 ∧
    parse_amount "123456789012" = 123456789012 ∧
    universalParseAmount "123456789012" = none := by
  refine ⟨by decide, by decide, by decide⟩

/-- C2.  For every finalized record sequence, `_validate_balance`
leaves record `i+1` unchanged exactly when
`|saldo[i+1] - (saldo[i] + creditos[i+1] - debitos[i+1])| ≤ 0.01`, and
otherwise appends exactly one observation carrying the formatted
expected value; on the spec's concrete example no observation is added
for balance 1200 and exactly one mentioning `esperado: 1200.00` is
added for balance 1250. -/
theorem C2_balance_tolerance :
    (∀ (rows : List FinRow) (i : Nat) (prev r : FinRow),
      rows[i]? = some prev → rows[i + 1]? = some r →
      (validate_balance rows)[i + 1]? =
        some (if |r.saldo - (prev.saldo + r.creditos - r.debitos)| > 1 / 100 then
          { r with observaciones := (appendObs r.observaciones
              (balanceMsg (prev.saldo + r.creditos - r.debitos) r.saldo)) }
        else r)) ∧
    validate_balance [balRow1, balRow2ok] = [balRow1, balRow2ok] ∧
    validate_balance [balRow1, balRow2bad] =
      [balRow1, { balRow2bad with observaciones :=
        "Inconsistencia – revisar (esperado: 1200.00, actual: 1250.00)" }] ∧
    strIn "esperado: 1200.00"
      "Inconsistencia – revisar (esperado: 1200.00, actual: 1250.00)" = true := by
  refine ⟨?_, by decide, by decide, by decide⟩
  intro rows i prev r hp hr
  unfold validate_balance
  rw [List.getElem?_map, List.getElem?_enum, hr]
  simp only [Option.map_some', Option.some.injEq]
  rw [if_neg (Nat.succ_ne_zero i), Nat.add_sub_cancel, hp]

/-- C2, witness: the general clause applied to the concrete
inconsistent pair. -/
theorem C2_balance_tolerance_witness :
    (validate_balance [balRow1, balRow2bad])[0 + 1]? =
      some (if |balRow2bad.saldo -
          (balRow1.saldo + balRow2bad.creditos - balRow2bad.debitos)| > 1 / 100 then
        { balRow2bad with observaciones := (appendObs balRow2bad.observaciones
            (balanceMsg (balRow1.saldo + balRow2bad.creditos - balRow2bad.debitos)
              balRow2bad.saldo)) }
      else balRow2bad) :=
  C2_balance_tolerance.1 [balRow1, balRow2bad] 0 balRow1 balRow2bad rfl rfl

/-- C7.  The validator (`_validate_balance` followed by
`_flag_problem_rows`) preserves the number of records and every field
except `observaciones`, and only ever appends to `observaciones` (the
input observation text is a prefix of the output text). -/
theorem C7_validator_frame (rows : List FinRow) :
    (flag_problem_rows (validate_balance rows)).length = rows.length ∧
    (∀ (i : Nat) (r r' : FinRow), rows[i]? = some r →
      (flag_problem_rows (validate_balance rows))[i]? = some r' →
      r'.fecha = r.fecha ∧ r'.mes = r.mes ∧ r'.anio = r.anio ∧
      r'.detalle = r.detalle ∧ r'.referencia = r.referencia ∧
      r'.debitos = r.debitos ∧ r'.creditos = r.creditos ∧ r'.saldo = r.saldo ∧
      r.observaciones.data.isPrefixOf r'.observaciones.data = true) := by
  constructor
  · unfold flag_problem_rows validate_balance
    simp
  · intro i r r' hr hr'
    obtain ⟨t1, h1⟩ := validate_balance_frame rows i r hr
    obtain ⟨t2, h2⟩ := flag_problem_rows_frame (validate_balance rows) i _ h1
    rw [hr'] at h2
    have hr'' : r' = { r with observaciones := r.observaciones ++ t1 ++ t2 } :=
      Option.some.inj h2
    subst hr''
    refine ⟨rfl, rfl, rfl, rfl, rfl, rfl, rfl, rfl, ?_⟩
    show r.observaciones.data.isPrefixOf (r.observaciones ++ t1 ++ t2).data = true
    rw [String.append_assoc, String.data_append]
    exact isPrefixOf_append_self _ _

/-- C7, witness. -/
theorem C7_validator_frame_witness :
    balRow2bad.fecha = balRow2bad.fecha ∧ balRow2bad.mes = balRow2bad.mes ∧
    balRow2bad.anio = balRow2bad.anio ∧ balRow2bad.detalle = balRow2bad.detalle ∧
    balRow2bad.referencia = balRow2bad.referencia ∧
    balRow2bad.debitos = balRow2bad.debitos ∧
    balRow2bad.creditos = balRow2bad.creditos ∧
    balRow2bad.saldo = balRow2bad.saldo ∧
    True := by
  have h := (C7_validator_frame [balRow1, balRow2bad]).2 1 balRow2bad
    { balRow2bad with observaciones :=
        "Inconsistencia – revisar (esperado: 1200.00, actual: 1250.00)" }
    rfl (by decide)
  exact ⟨h.1 ▸ rfl, rfl, rfl, rfl, rfl, rfl, rfl, rfl, trivial⟩

/-- C9, amended.  What the separator heuristics actually do.
For a comma-only token `p,c` (`p`, `c` digit strings, `p` nonempty):
`BaseParser.parse_amount` treats the comma as decimal exactly when the
comma splits the token into two parts whose second part has length 2
(so with a single comma: exactly when two digits follow it), else it
strips the comma as grouping; `UniversalBankExtractor._parse_amount`
accepts such a token only when exactly two digits follow the comma
(yielding the decimal reading) and returns `None` otherwise, rather
than applying a grouping reading.  When both separators occur,
`parse_amount` uses the rightmost one as decimal: with dots inside `p`
and a final comma group `c` it yields `digits(p) . c`, and symmetrically
with commas inside `p` and a final dot group; the universal normalizer
agrees on shaped tokens such as `"1.234,56"` and `"1,234.56"`. -/
theorem C9_separator_amended :
    (∀ p c : List Char, (∀ x ∈ p, x.isDigit = true) → (∀ x ∈ c, x.isDigit = true) →
      p ≠ [] →
      parse_amount ⟨p ++ ',' :: c⟩ =
        if c.length = 2 then (natOfDigits p : ℚ) + (natOfDigits c : ℚ) / 100
        else (natOfDigits (p ++ c) : ℚ)) ∧
    (∀ p c : List Char, (∀ x ∈ p, x.isDigit = true) → (∀ x ∈ c, x.isDigit = true) →
      p ≠ [] → p.length + c.length ≤ 11 →
      universalParseAmount ⟨p ++ ',' :: c⟩ =
        if c.length = 2 then some ((natOfDigits p : ℚ) + (natOfDigits c : ℚ) / 100)
        else none) ∧
    (∀ p c : List Char, (∀ x ∈ p, x.isDigit = true ∨ x = '.') → '.' ∈ p →
      (∀ x ∈ c, x.isDigit = true) → c ≠ [] →
      (∃ d p', p = d :: p' ∧ d.isDigit = true) →
      parse_amount ⟨p ++ ',' :: c⟩ =
        (natOfDigits (p.filter (· ≠ '.')) : ℚ) + fracOfDigits c) ∧
    (∀ p c : List Char, (∀ x ∈ p, x.isDigit = true ∨ x = ',') → ',' ∈ p →
      (∀ x ∈ c, x.isDigit = true) → c ≠ [] →
      (∃ d p', p = d :: p' ∧ d.isDigit = true) →
      parse_amount ⟨p ++ '.' :: c⟩ =
        (natOfDigits (p.filter (· ≠ ',')) : ℚ) + fracOfDigits c) ∧
    universalParseAmount "1.234,56" = some (123456 / 100 : ℚ) ∧
    universalParseAmount "1,234.56" = some (123456 / 100 : ℚ) :=
  ⟨parse_amount_single_comma, universalParseAmount_single_comma,
   parse_amount_comma_decimal, parse_amount_dot_decimal, by decide, by decide⟩

theorem C9_separator_amended_witness :
    parse_amount ⟨['1'] ++ ',' :: ['5', '6']⟩ = 39 / 25 ∧
    parse_amount ⟨['1'] ++ ',' :: ['2', '3', '4']⟩ = 1234 ∧
    universalParseAmount ⟨['1', '2'] ++ ',' :: ['3', '4', '5']⟩ = none ∧
    universalParseAmount ⟨['7'] ++ ',' :: ['8', '9']⟩ = some (789 / 100) ∧
    parse_amount ⟨['1', '.', '2', '3', '4'] ++ ',' :: ['5', '6']⟩ = 30864 / 25 ∧
    parse_amount ⟨['1', ',', '2', '3', '4'] ++ '.' :: ['5', '6']⟩ = 30864 / 25 := by
  refine ⟨?_, ?_, ?_, ?_, ?_, ?_⟩
  · rw [C9_separator_amended.1 ['1'] ['5', '6'] (by decide) (by decide) (by decide)]
    decide
  · rw [C9_separator_amended.1 ['1'] ['2', '3', '4'] (by decide) (by decide) (by decide)]
    decide
  · rw [C9_separator_amended.2.1 ['1', '2'] ['3', '4', '5'] (by decide) (by decide)
      (by decide) (by decide)]
    decide
  · rw [C9_separator_amended.2.1 ['7'] ['8', '9'] (by decide) (by decide)
      (by decide) (by decide)]
    decide
  · rw [C9_separator_amended.2.2.1 ['1', '.', '2', '3', '4'] ['5', '6'] (by decide)
      (by decide) (by decide) (by decide) ⟨'1', ['.', '2', '3', '4'], rfl, by decide⟩]
    decide
  · rw [C9_separator_amended.2.2.2.1 ['1', ',', '2', '3', '4'] ['5', '6'] (by decide)
      (by decide) (by decide) (by decide) ⟨'1', [',', '2', '3', '4'], rfl, by decide⟩]
    decide

/-- C8, amended.  For every day/month-only string `dd/mm` (day 1–28,
month 1–12), `_normalize_date` infers the year from the 4-digit year
found in the filename hint when one is present and renders the ISO
form `yyyy-mm-dd`; when the hint holds no year there is no
current-year fallback — the construction raises, the exception is
swallowed, and the stripped input is returned unchanged.  The hint
`"Marzo 2025"` yields year 2025 and
`normalize_date("05/03") = "2025-03-05"`. -/
theorem C8_date_year_amended :
    (∀ d ∈ List.range' 1 28, ∀ m ∈ List.range' 1 12,
      universalNormalizeDate (some 2025) (pad2 d ++ "/" ++ pad2 m) =
        fmtISO 2025 m d ∧
      universalNormalizeDate none (pad2 d ++ "/" ++ pad2 m) =
        pad2 d ++ "/" ++ pad2 m) ∧
    extractYearFromFilename "Marzo 2025" = some 2025 ∧
    universalNormalizeDate (extractYearFromFilename "Marzo 2025") "05/03" =
      "2025-03-05" := by
  refine ⟨by decide, by decide, by decide⟩

/-- C8, witness for the amended theorem at the concrete claim input
`d = 5`, `m = 3`. -/
theorem C8_date_year_amended_witness :
    universalNormalizeDate (some 2025) (pad2 5 ++ "/" ++ pad2 3) =
      fmtISO 2025 3 5 ∧
    universalNormalizeDate none (pad2 5 ++ "/" ++ pad2 3) =
      pad2 5 ++ "/" ++ pad2 3 :=
  C8_date_year_amended.1 5 (by decide) 3 (by decide)

/-- C10, amended.  `normalize_text` is idempotent on every string:
uppercasing, NFD accent stripping, whitespace collapsing and stripping
all fix their own output (every character a first pass can emit is
normalization-inert, collapsed whitespace is a lone ASCII space, and a
stripped list has non-space ends).  `clean_text` is idempotent on
every string free of the control characters `\x00`–`\x1f` and
`\x7f`–`\x9f` (on such strings the control-filter is the identity and
strip-then-collapse fixes its own output); the unrestricted statement
is refuted by the counterexample theorem. -/
theorem C10_idempotence_amended :
    (∀ s : String, normalize_text (normalize_text s) = normalize_text s) ∧
    (∀ s : String, (∀ x ∈ s.data, isCtrl x = false) →
      clean_text (clean_text s) = clean_text s) :=
  ⟨normalize_text_idem, clean_text_idem_of_ctrl_free⟩

/-- C10, amended witness. -/
theorem C10_idempotence_amended_witness :
    normalize_text (normalize_text "  Pérez   García  123 ") =
      normalize_text "  Pérez   García  123 " ∧
    clean_text (clean_text "a  b c") = clean_text "a  b c" :=
  ⟨C10_idempotence_amended.1 "  Pérez   García  123 ",
   C10_idempotence_amended.2 "a  b c" (by decide)⟩

end Pdf2Excel
